import Mathlib

/-!
Verification development for the RD-Gen fork-join DAG generator.

The Python sources embedded here are
`src/dag_builder/fork_join_builder.py` (the `ForkJoinBuilder` class) and
`src/dag_exporter/dag_exporter.py` (the `DAGExporter` class).

Randomness is modelled by two oracle streams passed to the builder:
`fl : Nat -> Rat` supplies the successive results of `random.random()`
(contract: values lie in `[0, 1)`), and `it : Nat -> Nat` supplies the
successive results of `random.randint(1, max_fork)` (contract: values lie in
`[1, max_fork]`) as well as the indices chosen by `random.choice` on list
parameters.  The build state carries the next unread position of each stream,
so draws happen in the same order as in the Python code.
-/

namespace RDGen

/-- Scalar-or-list configuration parameter, as in the Python `Config` value
object: a parameter is a single value or a list, interpreted as an explicit
choice set or a [min,max] bound depending on the accessor used. -/
inductive ConfigValue (α : Type) where
  | scalar (x : α)
  | vals (xs : List α)
deriving DecidableEq, Repr

/-- Modelled from the spec: `Util.get_option_min` (the `Util` module is not
under src/).  Returns `none` when the parameter is omitted, the value of a
scalar, and the minimum of a list (`none` on the empty list, where Python
`min` would raise). -/
def getOptionMinN : Option (ConfigValue Nat) → Option Nat
  | none => none
  | some (.scalar x) => some x
  | some (.vals xs) => xs.min?

/-- Modelled from the spec: `Util.get_option_max` on an optional rational
parameter (the `Util` module is not under src/). -/
def getOptionMaxQ : Option (ConfigValue Rat) → Option Rat
  | none => none
  | some (.scalar x) => some x
  | some (.vals xs) => xs.max?

/-- Maximum of a scalar-or-list `Nat` parameter, as in
`max(v) if isinstance(v, list) else v` (`ForkJoinBuilder.__init__`); the empty
list, where Python `max` would raise, is mapped to `0`. -/
def cvMaxN : ConfigValue Nat → Nat
  | .scalar x => x
  | .vals xs => xs.foldl max 0

/-- Maximum of a scalar-or-list rational parameter (`Util.get_option_max` on a
present value, modelled from the spec); the empty list is mapped to `0`. -/
def cvMaxQ : ConfigValue Rat → Rat
  | .scalar x => x
  | .vals xs => (xs.max?).getD 0

/-- Python `x or 1` applied to an optional count: `None` and `0` both give 1. -/
def orOne : Option Nat → Nat
  | none => 1
  | some 0 => 1
  | some (k + 1) => k + 1

/-- Python truthiness of an optional numeric value (as produced by
`Util.get_option_max`): `None` and `0` are falsy. -/
def truthyOQ : Option Rat → Bool
  | none => false
  | some x => x != 0

/-- Python truthiness of a scalar-or-list `Nat` parameter: `0` and the empty
list are falsy. -/
def truthyCVN : ConfigValue Nat → Bool
  | .scalar x => x != 0
  | .vals xs => !xs.isEmpty

/-- Python truthiness of an optional scalar-or-list `Nat` parameter. -/
def truthyRawN : Option (ConfigValue Nat) → Bool
  | none => false
  | some cv => truthyCVN cv

/-- Python truthiness of an optional scalar-or-list rational parameter (used
on the raw config attributes in `DAGExporter`). -/
def truthyRawQ : Option (ConfigValue Rat) → Bool
  | none => false
  | some (.scalar x) => x != 0
  | some (.vals xs) => !xs.isEmpty

/-- The configuration fields consumed by `ForkJoinBuilder` and `DAGExporter`.
Fields that may be omitted from a configuration file are `Option`s. -/
structure Config where
  number_of_dags : Nat
  fork_depth : ConfigValue Nat
  nr_fork : ConfigValue Nat
  early_termination_prob : ConfigValue Rat
  number_of_source_nodes : Option (ConfigValue Nat)
  number_of_sink_nodes : Option (ConfigValue Nat)
  number_of_nodes : ConfigValue Nat
  graph_deadline : Option (ConfigValue Rat)
  graph_period : Option (ConfigValue Rat)
  graph_utilization : Option (ConfigValue Rat)
  ray_yaml : Bool
  figure : Bool
  draw_legend : Bool
  multi_rate : Bool
  end_to_end_deadline : Bool
  communication_time : Bool
deriving DecidableEq, Repr

/-- `self._max_fork_depth` as computed in `ForkJoinBuilder.__init__`. -/
def maxForkDepth (c : Config) : Nat := cvMaxN c.fork_depth

/-- `self._max_fork` as computed in `ForkJoinBuilder.__init__`. -/
def maxFork (c : Config) : Nat := cvMaxN c.nr_fork

/-- Python exceptions raised by the embedded code.  `infeasible` is
`InfeasibleConfigError`; the message strings are quoted from the source
without the surrounding single quotation marks. -/
inductive PyError where
  | infeasible (msg : String)
  | typeError
  | keyError
  | zeroDivisionError
deriving DecidableEq, Repr

/-- Message of the source/sink budget check in `_validate_config`. -/
def srcSinkMsg : String := "Number of source nodes + Number of sink nodes > Number of nodes"

/-- Message of the early-termination probability bound check. -/
def etpMsg : String := "Early termination probability exceeds bounds [0,1]"

/-- Message of the deadline/period/utilization exclusivity check. -/
def dpuMsg : String := "Specify either utilization only, or both deadline and period only"

/-- Embedding of `ForkJoinBuilder._validate_config`.  The three checks run in
source order and the first failing one raises `InfeasibleConfigError`. -/
def validateConfig (c : Config) : Except PyError Unit :=
  let nSrc := orOne (getOptionMinN c.number_of_source_nodes)
  let nSink := orOne (getOptionMinN c.number_of_sink_nodes)
  let nNodes := cvMaxN c.number_of_nodes
  let etp := cvMaxQ c.early_termination_prob
  let d := getOptionMaxQ c.graph_deadline
  let p := getOptionMaxQ c.graph_period
  let u := getOptionMaxQ c.graph_utilization
  if nSrc + nSink > nNodes then .error (.infeasible srcSinkMsg)
  else if etp > 1 || etp < 0 then .error (.infeasible etpMsg)
  else if (truthyOQ u && (truthyOQ d || truthyOQ p))
      || (!truthyOQ u && (!truthyOQ d || !truthyOQ p)) then .error (.infeasible dpuMsg)
  else .ok ()

/-- Modelled from the spec: the abstract builder contract (`DAGBuilderBase`,
not under src/) validates the configuration eagerly at construction time, so
an infeasible configuration fails before `build` can produce any graph.  The
payload is the pair of derived scalars held by `ForkJoinBuilder`. -/
def forkJoinBuilderNew (c : Config) : Except PyError (Nat × Nat) :=
  (validateConfig c).map fun _ => (maxForkDepth c, maxFork c)

/-- A directed edge of the generated graph.  `indirect` is the boolean edge
attribute set by `G.add_edge(entry, join_node, indirect=True)`; regular edges
carry `indirect = false` (the attribute is absent in Python). -/
structure Edge where
  src : Nat
  dst : Nat
  indirect : Bool
deriving DecidableEq, Repr

/-- The mutable `nx.DiGraph` under construction: node ids in insertion order,
edges in insertion order, and the per-node `type` attribute as an association
list where setting a type prepends (so `lookup` sees the latest value, like a
Python dict assignment). -/
structure DiGraph where
  nodes : List Nat
  edges : List Edge
  types : List (Nat × String)
deriving DecidableEq, Repr

/-- The per-DAG build state: the graph, the node-id counter, and the read
positions of the two random-oracle streams.  `counter` is the next fresh id,
modelling `node_counter = [-1]` with `next_node_id` pre-incrementing (the
first allocated id is 0). -/
structure BuildState where
  g : DiGraph
  counter : Nat
  fi : Nat
  ii : Nat
deriving DecidableEq, Repr

/-- `G.add_node(n)`. -/
def addNode (n : Nat) (st : BuildState) : BuildState :=
  { st with g := { st.g with nodes := st.g.nodes ++ [n] } }

/-- `G.add_edge(u, v)` (with `ind = true` for `indirect=True`). -/
def addEdge (u v : Nat) (ind : Bool) (st : BuildState) : BuildState :=
  { st with g := { st.g with edges := st.g.edges ++ [Edge.mk u v ind] } }

/-- `G.nodes[n]["type"] = t`. -/
def setType (n : Nat) (t : String) (st : BuildState) : BuildState :=
  { st with g := { st.g with types := (n, t) :: st.g.types } }

/-- The `type` attribute of node `n`, `none` if never assigned. -/
def typeOf (g : DiGraph) (n : Nat) : Option String := g.types.lookup n

/-- Advance the `random.random()` stream position by one draw. -/
def consumeF (st : BuildState) : BuildState := { st with fi := st.fi + 1 }

/-- Advance the integer-draw stream position by one draw. -/
def consumeI (st : BuildState) : BuildState := { st with ii := st.ii + 1 }

/-- Modelled from the spec: `Util.random_choice` on a `Nat` parameter (the
`Util` module is not under src/): a scalar is returned as is; from a list one
element is chosen by the random source, modelled as one integer draw reduced
modulo the length (the empty list, where Python would raise, gives 0). -/
def randomChoiceN (it : Nat → Nat) (cv : ConfigValue Nat) (st : BuildState) :
    Nat × BuildState :=
  match cv with
  | .scalar x => (x, st)
  | .vals xs => (xs.getD (it st.ii % xs.length) 0, consumeI st)

/-- Modelled from the spec: `Util.random_choice` on a rational parameter. -/
def randomChoiceQ (it : Nat → Nat) (cv : ConfigValue Rat) (st : BuildState) :
    Rat × BuildState :=
  match cv with
  | .scalar x => (x, st)
  | .vals xs => (xs.getD (it st.ii % xs.length) 0, consumeI st)

/-- The fork loop of `recursive_fork_join` (lines 70-75): allocate `k` child
nodes, adding each to the graph with a regular edge from `entry`, returning
the children in creation order. -/
def addChildren (entry : Nat) : Nat → BuildState → BuildState × List Nat
  | 0, st => (st, [])
  | k + 1, st =>
    let c := st.counter
    let st1 := addEdge entry c false (addNode c { st with counter := st.counter + 1 })
    let p := addChildren entry k st1
    (p.1, c :: p.2)

/-- The list comprehension `[recursive_fork_join(child, depth - 1) for child
in children]`: run `f` over the children left to right, threading the state
and collecting each returned leaf. -/
def processChildren (f : Nat → BuildState → BuildState × Nat) :
    List Nat → BuildState → BuildState × List Nat
  | [], st => (st, [])
  | c :: cs, st =>
    let p := f c st
    let q := processChildren f cs p.1
    (q.1, p.2 :: q.2)

/-- The non-terminating branch of `recursive_fork_join` (lines 67-90 of
`fork_join_builder.py`): draw `num_forks` (one integer draw, standing for
`random.randint(1, self._max_fork)`), fork the children, recurse on each via
`f` (the recursive call one level deeper), allocate the join node, add one
regular edge from each collected leaf to the join, and one `indirect=True`
edge from `entry` to the join; the join is this level's output. -/
def forkStep (f : Nat → BuildState → BuildState × Nat) (it : Nat → Nat)
    (entry : Nat) (st0 : BuildState) : BuildState × Nat :=
  let numForks := it st0.ii
  let st1 := consumeI st0
  let p := addChildren entry numForks st1
  let q := processChildren f p.2 p.1
  let joinNode := q.1.counter
  let st4 := addNode joinNode { q.1 with counter := q.1.counter + 1 }
  let st5 := q.2.foldl (fun s leaf => addEdge leaf joinNode false s) st4
  let st6 := addEdge entry joinNode true st5
  (st6, joinNode)

/-- Embedding of the closure `recursive_fork_join(entry, depth)` from
`ForkJoinBuilder.build`.  `mfd` is `self._max_fork_depth`, `mf` is
`self._max_fork` (the integer oracle `it` stands for
`random.randint(1, self._max_fork)`, so its values are constrained to
`[1, mf]` by hypothesis where a theorem needs it), `etp` is the
early-termination probability sampled once per DAG.  The float draw for early
termination is consumed only when `depth < mfd`, matching Python
short-circuiting of `and`.  Returns the new state and the id of the subtree's
output node. -/
def recursiveForkJoin (mfd mf : Nat) (etp : Rat) (fl : Nat → Rat) (it : Nat → Nat) :
    Nat → Nat → BuildState → BuildState × Nat
  | 0, entry, st => (st, entry)
  | d + 1, entry, st =>
    if d + 1 < mfd then
      let r := fl st.fi
      let st1 := consumeF st
      if r < etp then (st1, entry)
      else forkStep (recursiveForkJoin mfd mf etp fl it d) it entry st1
    else forkStep (recursiveForkJoin mfd mf etp fl it d) it entry st

/-- The source loop of `ForkJoinBuilder.build` (lines 96-101): for each slot
allocate a fresh node, tag it `source`, run `recursive_fork_join` on it with
depth `self._max_fork_depth`, and collect the returned output node. -/
def sourceLoop (mfd mf : Nat) (etp : Rat) (fl : Nat → Rat) (it : Nat → Nat) :
    Nat → BuildState → BuildState × List Nat
  | 0, st => (st, [])
  | k + 1, st =>
    let s := st.counter
    let st1 := setType s "source" (addNode s { st with counter := st.counter + 1 })
    let p := recursiveForkJoin mfd mf etp fl it mfd s st1
    let q := sourceLoop mfd mf etp fl it k p.1
    (q.1, p.2 :: q.2)

/-- The merge step of `ForkJoinBuilder.build` (lines 106-113): with more than
one source output, allocate a merge node and a regular edge from every output
to it; otherwise the single output is the final output. -/
def mergePhase (outs : List Nat) (st : BuildState) : BuildState × Nat :=
  if 1 < outs.length then
    let m := st.counter
    let st1 := addNode m { st with counter := st.counter + 1 }
    let st2 := outs.foldl (fun s o => addEdge o m false s) st1
    (st2, m)
  else (st, outs.headD 0)

/-- The multi-sink loop of `ForkJoinBuilder.build` (lines 122-126). -/
def addSinks (finalOutput : Nat) : Nat → BuildState → BuildState
  | 0, st => st
  | k + 1, st =>
    let s := st.counter
    let st1 := setType s "sink"
      (addEdge finalOutput s false (addNode s { st with counter := st.counter + 1 }))
    addSinks finalOutput k st1

/-- The sink step of `ForkJoinBuilder.build` (lines 116-126): when the sink
parameter is truthy, sample the sink count; a count of 1 retags the final
output as `sink` without allocating a node, otherwise that many fresh sink
nodes are attached to the final output. -/
def sinkPhase (c : Config) (it : Nat → Nat) (finalOutput : Nat) (st : BuildState) :
    BuildState :=
  match c.number_of_sink_nodes with
  | none => st
  | some cv =>
    if truthyCVN cv then
      let p := randomChoiceN it cv st
      if p.1 = 1 then setType finalOutput "sink" p.2
      else addSinks finalOutput p.1 p.2
    else st

/-- The empty per-DAG state with oracle positions `fi`, `ii`. -/
def initialState (fi ii : Nat) : BuildState := ⟨⟨[], [], []⟩, 0, fi, ii⟩

/-- One iteration of the `for _ in range(self._config.number_of_dags)` loop of
`ForkJoinBuilder.build`: sample the early-termination probability once, run
the source loop with `num_sources = Util.get_option_min(...) or 1`, merge,
then the sink step.  Returns the full final state (its `.g` is the yielded
graph, its stream positions carry over to the next DAG). -/
def buildOne (c : Config) (fl : Nat → Rat) (it : Nat → Nat) (fi ii : Nat) : BuildState :=
  let st0 := initialState fi ii
  let pe := randomChoiceQ it c.early_termination_prob st0
  let numSources := orOne (getOptionMinN c.number_of_source_nodes)
  let p := sourceLoop (maxForkDepth c) (maxFork c) pe.1 fl it numSources pe.2
  let q := mergePhase p.2 p.1
  sinkPhase c it q.2 q.1

/-- The DAG-count loop of `ForkJoinBuilder.build`, threading the random-stream
positions across iterations (the Python `random` module is a single global
source). -/
def buildAux (c : Config) (fl : Nat → Rat) (it : Nat → Nat) :
    Nat → Nat → Nat → List DiGraph
  | 0, _, _ => []
  | k + 1, fi, ii =>
    let st := buildOne c fl it fi ii
    st.g :: buildAux c fl it k st.fi st.ii

/-- The lazy generator `ForkJoinBuilder.build`, as the list of the
`number_of_dags` graphs it yields. -/
def forkJoinBuild (c : Config) (fl : Nat → Rat) (it : Nat → Nat) : List DiGraph :=
  buildAux c fl it c.number_of_dags 0 0

/-- Ghost record of one executed fork/join level: the entry node of the call,
the join node allocated in that same call, and the number of children forked
(`num_forks`).  Used only by the instrumented variants below, which are
proved to project onto the plain embedding. -/
structure ForkRec where
  entry : Nat
  join : Nat
  width : Nat
deriving DecidableEq, Repr

/-- Instrumented `processChildren`: also concatenates the ghost fork records
of the recursive calls, in call order. -/
def processChildrenRec (f : Nat → BuildState → BuildState × Nat × List ForkRec) :
    List Nat → BuildState → BuildState × List Nat × List ForkRec
  | [], st => (st, [], [])
  | c :: cs, st =>
    let p := f c st
    let q := processChildrenRec f cs p.1
    (q.1, p.2.1 :: q.2.1, p.2.2 ++ q.2.2)

/-- Instrumented `forkStep`: identical state transformation, plus the ghost
fork records (children's records first, then this level's record, which is
emitted at the point where the join node is allocated). -/
def forkStepRec (f : Nat → BuildState → BuildState × Nat × List ForkRec) (it : Nat → Nat)
    (entry : Nat) (st0 : BuildState) : BuildState × Nat × List ForkRec :=
  let numForks := it st0.ii
  let st1 := consumeI st0
  let p := addChildren entry numForks st1
  let q := processChildrenRec f p.2 p.1
  let joinNode := q.1.counter
  let st4 := addNode joinNode { q.1 with counter := q.1.counter + 1 }
  let st5 := q.2.1.foldl (fun s leaf => addEdge leaf joinNode false s) st4
  let st6 := addEdge entry joinNode true st5
  (st6, joinNode, q.2.2 ++ [ForkRec.mk entry joinNode numForks])

/-- Instrumented `recursive_fork_join`: identical state transformation, plus
the ghost fork records of all fork/join levels executed by the call. -/
def recursiveForkJoinRec (mfd mf : Nat) (etp : Rat) (fl : Nat → Rat) (it : Nat → Nat) :
    Nat → Nat → BuildState → BuildState × Nat × List ForkRec
  | 0, entry, st => (st, entry, [])
  | d + 1, entry, st =>
    if d + 1 < mfd then
      let r := fl st.fi
      let st1 := consumeF st
      if r < etp then (st1, entry, [])
      else forkStepRec (recursiveForkJoinRec mfd mf etp fl it d) it entry st1
    else forkStepRec (recursiveForkJoinRec mfd mf etp fl it d) it entry st

/-- Instrumented source loop. -/
def sourceLoopRec (mfd mf : Nat) (etp : Rat) (fl : Nat → Rat) (it : Nat → Nat) :
    Nat → BuildState → BuildState × List Nat × List ForkRec
  | 0, st => (st, [], [])
  | k + 1, st =>
    let s := st.counter
    let st1 := setType s "source" (addNode s { st with counter := st.counter + 1 })
    let p := recursiveForkJoinRec mfd mf etp fl it mfd s st1
    let q := sourceLoopRec mfd mf etp fl it k p.1
    (q.1, p.2.1 :: q.2.1, p.2.2 ++ q.2.2)

/-- Instrumented `buildOne`: the same final state, plus the ghost fork
records of every fork/join level executed while building the DAG. -/
def buildOneRec (c : Config) (fl : Nat → Rat) (it : Nat → Nat) (fi ii : Nat) :
    BuildState × List ForkRec :=
  let st0 := initialState fi ii
  let pe := randomChoiceQ it c.early_termination_prob st0
  let numSources := orOne (getOptionMinN c.number_of_source_nodes)
  let p := sourceLoopRec (maxForkDepth c) (maxFork c) pe.1 fl it numSources pe.2
  let q := mergePhase p.2.1 p.1
  (sinkPhase c it q.2 q.1, p.2.2)

/-- Floor of a rational, computably (`Int.fdiv` is floor division and the
denominator is positive). -/
def ratFloor (q : Rat) : Int := Int.fdiv q.num (q.den : Int)

/-- Round to the nearest integer, ties to even — the rounding used by Python
`round` (the embedding works on exact rationals; float representation error
of CPython is outside the model). -/
def roundHalfEven (q : Rat) : Int :=
  let f := ratFloor q
  let r := q - (f : Rat)
  if r < 1 / 2 then f
  else if (1 : Rat) / 2 < r then f + 1
  else if f % 2 = 0 then f else f + 1

/-- Python `round(x, 2)` on an exact rational. -/
def pyRound2 (q : Rat) : Rat := ((roundHalfEven (q * 100) : Rat)) / 100

/-- A node of the graph as seen by `DAGExporter`: the id (an `Int`, since the
legend pseudo-node has id -1) and the node attributes the exporter reads or
writes; an absent attribute is `none` (reading an absent `execution_time`
with `[...]` raises `KeyError` in Python, modelled where it happens). -/
structure ExpNode where
  id : Int
  type : Option String
  execution_time : Option Rat
  label : Option String
  shape : Option String
  style : Option String
  period : Option Rat
  end_to_end_deadline : Option Rat
  fontsize : Option Nat
deriving DecidableEq, Repr

/-- An edge of the graph as seen by `DAGExporter` (in `node_link_data` form,
with `source`/`target` keys). -/
structure ExpEdge where
  source : Int
  target : Int
  indirect : Bool
  communication_time : Option Rat
  label : Option String
  fontsize : Option Nat
deriving DecidableEq, Repr

/-- The graph handed to `DAGExporter.export`. -/
structure EDag where
  nodes : List ExpNode
  edges : List ExpEdge
deriving DecidableEq, Repr

/-- Embedding of `DAGExporter._change_source_sink_wcet`: every node whose
`type` is `source` or `sink` gets `execution_time = 0`, in place. -/
def changeSourceSinkWcet (dag : EDag) : EDag :=
  { dag with
    nodes := dag.nodes.map fun n =>
      if n.type == some "source" || n.type == some "sink" then
        { n with execution_time := some 0 }
      else n }

/-- The record written by `_export_dag_custom_yaml`: `d` and `t` hold either
the raw configured value or a computed scalar. -/
structure CustomExport where
  d : Option (ConfigValue Rat)
  t : Option (ConfigValue Rat)
  vertices : List (Int × Rat)
  edges : List (Int × Int)
  indirect_edges : List (Int × Int)
deriving DecidableEq, Repr

/-- One iteration of the vertex loop of `_export_dag_custom_yaml`: zero the
execution time of a `source`/`sink` node (on the `node_link_data` copy), then
read it — `KeyError` if absent. -/
def vertexRow (n : ExpNode) : Except PyError (Int × Rat) :=
  let n1 :=
    if n.type == some "source" || n.type == some "sink" then
      { n with execution_time := some 0 }
    else n
  match n1.execution_time with
  | none => Except.error .keyError
  | some cexec => Except.ok (n1.id, cexec)

/-- The vertex loop of `_export_dag_custom_yaml`, in source order; the first
`KeyError` aborts the loop as the Python exception would. -/
def vertexRows : List ExpNode → Except PyError (List (Int × Rat))
  | [] => Except.ok []
  | n :: ns =>
    match vertexRow n with
    | Except.error e => Except.error e
    | Except.ok r =>
      match vertexRows ns with
      | Except.error e => Except.error e
      | Except.ok rs => Except.ok (r :: rs)

/-- The `d`/`t` derivation of `_export_dag_custom_yaml` (lines 76-82): taken
directly from the raw configuration attributes when
`graph_deadline and graph_period` is truthy, otherwise both set to
`round(volume / graph_utilization, 2)` — `TypeError` when the raw
utilization is not a number, `ZeroDivisionError` when it is 0. -/
def dtPair (c : Config) (volume : Rat) :
    Except PyError (Option (ConfigValue Rat) × Option (ConfigValue Rat)) :=
  if truthyRawQ c.graph_deadline && truthyRawQ c.graph_period then
    Except.ok (c.graph_deadline, c.graph_period)
  else
    match c.graph_utilization with
    | some (.scalar u) =>
      if u == 0 then Except.error .zeroDivisionError
      else Except.ok (some (ConfigValue.scalar (pyRound2 (volume / u))),
        some (ConfigValue.scalar (pyRound2 (volume / u))))
    | _ => Except.error .typeError

/-- Embedding of `DAGExporter._export_dag_custom_yaml`: build the `vertices`
list (accumulating `volume`), derive `d`/`t`, then split the links into
regular and indirect buckets. -/
def exportDagCustomYaml (c : Config) (gd : EDag) : Except PyError CustomExport :=
  match vertexRows gd.nodes with
  | Except.error e => Except.error e
  | Except.ok rows =>
    match dtPair c ((rows.map Prod.snd).sum) with
    | Except.error e => Except.error e
    | Except.ok dt =>
      Except.ok
        { d := dt.1
          t := dt.2
          vertices := rows
          edges := (gd.edges.filter fun l => !l.indirect).map fun l => (l.source, l.target)
          indirect_edges :=
            (gd.edges.filter fun l => l.indirect).map fun l => (l.source, l.target) }

/-- The sum the claim describes: execution times over all vertices after
forcing `source`- and `sink`-tagged vertices to 0. -/
def totalExecTime (gd : EDag) : Rat :=
  (gd.nodes.map fun n =>
    if n.type == some "source" || n.type == some "sink" then 0
    else n.execution_time.getD 0).sum

/-- String rendering of a rational for figure labels (the exact text Python
would print is a float; only the attribute change matters to the claims). -/
def ratStr (q : Rat) : String :=
  if q.den == 1 then toString q.num else toString q.num ++ "/" ++ toString q.den

/-- The node-preprocessing loop of `DAGExporter._export_fig` (lines 156-165):
set the `label` attribute from the id and execution time (`KeyError` if the
execution time is absent), and extend it when a truthy `period` or
`end_to_end_deadline` attribute is present (Python walrus-`if`, so 0 does not
count). -/
def figNode (n : ExpNode) : Except PyError ExpNode :=
  match n.execution_time with
  | none => Except.error .keyError
  | some cexec =>
    let n1 := { n with label := some ("[" ++ toString n.id ++ "]\n" ++ "C: " ++ ratStr cexec) }
    let n2 :=
      match n1.period with
      | some p =>
        if p != 0 then
          { n1 with shape := some "box",
                    label := some ((n1.label.getD "") ++ "\nT: " ++ ratStr p) }
        else n1
      | none => n1
    match n2.end_to_end_deadline with
    | some dl =>
      if dl != 0 then
        Except.ok { n2 with style := some "bold",
                            label := some ((n2.label.getD "") ++ "\nD: " ++ ratStr dl) }
      else Except.ok n2
    | none => Except.ok n2

/-- The edge-preprocessing loop of `DAGExporter._export_fig` (lines 167-170):
a truthy `communication_time` attribute produces an edge label. -/
def figEdge (e : ExpEdge) : ExpEdge :=
  match e.communication_time with
  | some comm =>
    if comm != 0 then { e with label := some (" " ++ ratStr comm), fontsize := some 10 }
    else e
  | none => e

/-- The legend text assembled in `DAGExporter._export_fig` (lines 173-186). -/
def legendLabel (c : Config) : String :=
  String.join
    (["----- Legend ----\n\n"] ++
     (if c.multi_rate then ["Square node:  Timer-driven node\\l"] else []) ++
     ["Circle node:  Event-driven node\\l", "[i]:  Task index\\l",
      "C:  Worst-case execution time (WCET)\\l"] ++
     (if c.multi_rate then ["T:  Period\\l"] else []) ++
     (if c.end_to_end_deadline then ["D:  End-to-end deadline\\l"] else []) ++
     (if c.communication_time then ["Number attached to arrow:  Communication time\\l"] else []))

/-- The legend pseudo-node `dag.add_node(-1, label=..., fontsize=15,
shape="box3d")`. -/
def legendNode (c : Config) : ExpNode :=
  { id := -1, type := none, execution_time := none, label := some (legendLabel c),
    shape := some "box3d", style := none, period := none, end_to_end_deadline := none,
    fontsize := some 15 }

/-- The node loop of `_export_fig`, in source order. -/
def figNodes : List ExpNode → Except PyError (List ExpNode)
  | [] => Except.ok []
  | n :: ns =>
    match figNode n with
    | Except.error e => Except.error e
    | Except.ok r =>
      match figNodes ns with
      | Except.error e => Except.error e
      | Except.ok rs => Except.ok (r :: rs)

/-- The in-place mutations `DAGExporter._export_fig` performs on the graph
before rendering: relabel every node and edge, and append the legend node
when `draw_legend` is set.  The rendering itself (pydot, file output) is not
modelled. -/
def figEffect (c : Config) (dag : EDag) : Except PyError EDag :=
  match figNodes dag.nodes with
  | Except.error e => Except.error e
  | Except.ok ns =>
    if c.draw_legend then
      Except.ok { nodes := ns ++ [legendNode c], edges := dag.edges.map figEdge }
    else Except.ok { nodes := ns, edges := dag.edges.map figEdge }

/-- The effect of `DAGExporter.export` on the graph object passed to it.
When `ray_yaml` is set, `_change_source_sink_wcet` mutates the graph in
place; `_export_dag` then runs `_export_dag_custom_yaml` on the fresh
dictionaries of `node_link_data` (which never mutates the graph but may
raise, aborting before the figure step); finally, when `figure` is set,
`_export_fig` mutates node and edge attributes in place.  File writing is
not modelled. -/
def exportEffect (c : Config) (dag : EDag) : Except PyError EDag :=
  let d1 := if c.ray_yaml then changeSourceSinkWcet dag else dag
  if c.ray_yaml then
    match exportDagCustomYaml c d1 with
    | .error e => Except.error e
    | .ok _ => if c.figure then figEffect c d1 else Except.ok d1
  else
    if c.figure then figEffect c d1 else Except.ok d1

/-- A concrete mid-build state: one allocated node, tagged `source`, counter
1 (the state just before the first recursive call in a one-source build). -/
def stW : BuildState := ⟨⟨[0], [], [(0, "source")]⟩, 1, 0, 0⟩

/-- A base configuration for concrete evaluations: one DAG, depth 1, two-way
forks, no early termination, one source, one sink, utilization only. -/
def baseCfg : Config :=
  { number_of_dags := 1
    fork_depth := .scalar 1
    nr_fork := .scalar 2
    early_termination_prob := .scalar 0
    number_of_source_nodes := some (.scalar 1)
    number_of_sink_nodes := some (.scalar 1)
    number_of_nodes := .scalar 100
    graph_deadline := none
    graph_period := none
    graph_utilization := some (.scalar 1)
    ray_yaml := false
    figure := false
    draw_legend := false
    multi_rate := false
    end_to_end_deadline := false
    communication_time := false }

/-- Constant float oracle (every `random.random()` draw is 0). -/
def flZ : Nat → Rat := fun _ => 0

/-- Constant integer oracle. -/
def itK (k : Nat) : Nat → Nat := fun _ => k

/-- Configuration with maximum fork depth 0 (`fork_depth = 0` passes
validation). -/
def cfgDepth0 : Config := { baseCfg with fork_depth := .scalar 0 }

/-- Configuration whose `nr_fork` range is `[2, 2]`. -/
def cfgFork22 : Config := { baseCfg with nr_fork := .vals [2, 2] }

/-- Configuration whose `number_of_source_nodes` is the list `[1, 2]` and
which has no sink parameter. -/
def cfgSrc12 : Config :=
  { baseCfg with number_of_source_nodes := some (.vals [1, 2])
                 number_of_sink_nodes := none
                 nr_fork := .scalar 1 }

/-- The infeasibility scenario: 5 sources, 5 sinks, 6 nodes. -/
def cfg556 : Config :=
  { baseCfg with number_of_source_nodes := some (.scalar 5)
                 number_of_sink_nodes := some (.scalar 5)
                 number_of_nodes := .scalar 6 }

/-- Exporter configuration with `graph_deadline` configured as 0 (present but
falsy), `graph_period = 5`, `graph_utilization = 2`. -/
def cfgDl0 : Config :=
  { baseCfg with graph_deadline := some (.scalar 0)
                 graph_period := some (.scalar 5)
                 graph_utilization := some (.scalar 2)
                 ray_yaml := true }

/-- Exporter configuration with both `ray_yaml` and `figure` set. -/
def cfgRayFig : Config :=
  { baseCfg with ray_yaml := true
                 figure := true
                 graph_deadline := some (.scalar 1)
                 graph_period := some (.scalar 1)
                 graph_utilization := none }

/-- Exporter configuration with `ray_yaml` set and `figure` unset. -/
def cfgRayOnly : Config :=
  { baseCfg with ray_yaml := true
                 graph_deadline := some (.scalar 1)
                 graph_period := some (.scalar 1)
                 graph_utilization := none }

/-- A one-node exporter graph: a single untagged vertex with execution time
5 and no other attributes. -/
def gdOne : EDag :=
  { nodes := [{ id := 0, type := none, execution_time := some 5, label := none,
                shape := none, style := none, period := none,
                end_to_end_deadline := none, fontsize := none }],
    edges := [] }

/-- A three-node exporter graph: a source (execution time 7), an untagged
vertex (execution time 5), and a sink (execution time 3), with one regular
and one indirect edge. -/
def gdThree : EDag :=
  { nodes :=
      [{ id := 0, type := some "source", execution_time := some 7, label := none,
         shape := none, style := none, period := none,
         end_to_end_deadline := none, fontsize := none },
       { id := 1, type := none, execution_time := some 5, label := none,
         shape := none, style := none, period := none,
         end_to_end_deadline := none, fontsize := none },
       { id := 2, type := some "sink", execution_time := some 3, label := none,
         shape := none, style := none, period := none,
         end_to_end_deadline := none, fontsize := none }],
    edges :=
      [{ source := 0, target := 1, indirect := false, communication_time := none,
         label := none, fontsize := none },
       { source := 0, target := 2, indirect := true, communication_time := none,
         label := none, fontsize := none }] }

/-- The expected ray-YAML record for `gdThree` under a configuration with
deadline and period both 1. -/
def rW : CustomExport :=
  { d := some (.scalar 1), t := some (.scalar 1),
    vertices := [(0, 0), (1, 5), (2, 0)],
    edges := [(0, 1)], indirect_edges := [(0, 2)] }

/-- `gdThree` after zeroing source/sink execution times. -/
def gdThreeZ : EDag := changeSourceSinkWcet gdThree

/-- There is an edge from `u` to `v` (regular or indirect). -/
def hasEdge (g : DiGraph) (u v : Nat) : Prop := ∃ b, Edge.mk u v b ∈ g.edges

/-- Every edge of `g` goes from a smaller node id to a strictly larger one. -/
def EdgesOrdered (g : DiGraph) : Prop := ∀ e ∈ g.edges, e.src < e.dst

/-- The edges of `g` carrying the `indirect=True` attribute, in insertion
order. -/
def indirectEdges (g : DiGraph) : List Edge := g.edges.filter fun e => e.indirect

/-- The number of nodes of `g` whose current `type` attribute is `t`. -/
def countTag (g : DiGraph) (t : String) : Nat :=
  (g.nodes.filter fun n => typeOf g n == some t).length

/-- The in-degree of node `n` in `g` (regular and indirect edges alike). -/
def inDeg (g : DiGraph) (n : Nat) : Nat :=
  (g.edges.filter fun e => e.dst == n).length

/-- State evolution along the builder: the counter is monotone, nodes and
edges are only appended, and every appended edge goes up in id order. -/
def EvolvesE (st st' : BuildState) : Prop :=
  st.counter ≤ st'.counter ∧
  (∃ dn, st'.g.nodes = st.g.nodes ++ dn) ∧
  (∃ de, st'.g.edges = st.g.edges ++ de ∧ ∀ e ∈ de, e.src < e.dst)

lemma addEdge_edges (u v : Nat) (b : Bool) (st : BuildState) :
    (addEdge u v b st).g.edges = st.g.edges ++ [Edge.mk u v b] := rfl

lemma addEdge_nodes (u v : Nat) (b : Bool) (st : BuildState) :
    (addEdge u v b st).g.nodes = st.g.nodes := rfl

lemma addEdge_types (u v : Nat) (b : Bool) (st : BuildState) :
    (addEdge u v b st).g.types = st.g.types := rfl

lemma addEdge_counter (u v : Nat) (b : Bool) (st : BuildState) :
    (addEdge u v b st).counter = st.counter := rfl

lemma addNode_nodes (n : Nat) (st : BuildState) :
    (addNode n st).g.nodes = st.g.nodes ++ [n] := rfl

lemma addNode_edges (n : Nat) (st : BuildState) :
    (addNode n st).g.edges = st.g.edges := rfl

lemma addNode_types (n : Nat) (st : BuildState) :
    (addNode n st).g.types = st.g.types := rfl

lemma addNode_counter (n : Nat) (st : BuildState) :
    (addNode n st).counter = st.counter := rfl

lemma setType_types (n : Nat) (t : String) (st : BuildState) :
    (setType n t st).g.types = (n, t) :: st.g.types := rfl

lemma setType_nodes (n : Nat) (t : String) (st : BuildState) :
    (setType n t st).g.nodes = st.g.nodes := rfl

lemma setType_edges (n : Nat) (t : String) (st : BuildState) :
    (setType n t st).g.edges = st.g.edges := rfl

lemma setType_counter (n : Nat) (t : String) (st : BuildState) :
    (setType n t st).counter = st.counter := rfl

lemma consumeF_g (st : BuildState) : (consumeF st).g = st.g := rfl

lemma consumeI_g (st : BuildState) : (consumeI st).g = st.g := rfl

lemma consumeF_counter (st : BuildState) : (consumeF st).counter = st.counter := rfl

lemma consumeI_counter (st : BuildState) : (consumeI st).counter = st.counter := rfl

lemma evolvesE_refl (st : BuildState) : EvolvesE st st :=
  ⟨le_refl _, ⟨[], by simp⟩, ⟨[], by simp, by simp⟩⟩

lemma evolvesE_trans {s1 s2 s3 : BuildState} (h1 : EvolvesE s1 s2) (h2 : EvolvesE s2 s3) :
    EvolvesE s1 s3 := by
  obtain ⟨hc1, ⟨dn1, hn1⟩, ⟨de1, he1, ho1⟩⟩ := h1
  obtain ⟨hc2, ⟨dn2, hn2⟩, ⟨de2, he2, ho2⟩⟩ := h2
  refine ⟨le_trans hc1 hc2, ⟨dn1 ++ dn2, by simp [hn2, hn1]⟩,
    ⟨de1 ++ de2, by simp [he2, he1], ?_⟩⟩
  intro e he
  rcases List.mem_append.mp he with h | h
  · exact ho1 e h
  · exact ho2 e h

lemma evolvesE_addNode (n : Nat) (st : BuildState) :
    EvolvesE st (addNode n { st with counter := st.counter + 1 }) :=
  ⟨Nat.le_succ _, ⟨[n], by simp [addNode]⟩, ⟨[], by simp [addNode], by simp⟩⟩

lemma evolvesE_addEdge {u v : Nat} (b : Bool) (st : BuildState) (h : u < v) :
    EvolvesE st (addEdge u v b st) :=
  ⟨le_refl _, ⟨[], by simp [addEdge]⟩,
    ⟨[Edge.mk u v b], by simp [addEdge], by simp [h]⟩⟩

lemma evolvesE_setType (n : Nat) (t : String) (st : BuildState) :
    EvolvesE st (setType n t st) :=
  ⟨le_refl _, ⟨[], by simp [setType]⟩, ⟨[], by simp [setType], by simp⟩⟩

lemma evolvesE_consumeF (st : BuildState) : EvolvesE st (consumeF st) :=
  ⟨le_refl _, ⟨[], by simp [consumeF]⟩, ⟨[], by simp [consumeF], by simp⟩⟩

lemma evolvesE_consumeI (st : BuildState) : EvolvesE st (consumeI st) :=
  ⟨le_refl _, ⟨[], by simp [consumeI]⟩, ⟨[], by simp [consumeI], by simp⟩⟩

/-- Exact description of the fork loop: `addChildren entry k` allocates the
ids `st.counter, …, st.counter + k - 1`, appends them as nodes, appends one
regular edge from `entry` to each, and returns them in order. -/
lemma addChildren_eq (entry : Nat) : ∀ (k : Nat) (st : BuildState),
    addChildren entry k st =
      (⟨⟨st.g.nodes ++ List.range' st.counter k,
         st.g.edges ++ (List.range' st.counter k).map fun c => Edge.mk entry c false,
         st.g.types⟩, st.counter + k, st.fi, st.ii⟩,
       List.range' st.counter k)
  | 0, st => by simp [addChildren, List.range']
  | k + 1, st => by
    rw [addChildren, addChildren_eq entry k]
    simp [addNode, addEdge, List.range'_succ]
    omega

lemma list_foldl_addEdge (j : Nat) : ∀ (ls : List Nat) (st : BuildState),
    ls.foldl (fun s leaf => addEdge leaf j false s) st =
      { st with g := { st.g with edges := st.g.edges ++ ls.map fun l => Edge.mk l j false } }
  | [], st => by simp
  | l :: ls, st => by
    rw [List.foldl_cons, list_foldl_addEdge j ls]
    simp [addEdge]

lemma addChildren_spec (entry k : Nat) (st : BuildState) (he : entry < st.counter) :
    EvolvesE st (addChildren entry k st).1 ∧
      (∀ c ∈ (addChildren entry k st).2, c < (addChildren entry k st).1.counter) ∧
      (addChildren entry k st).1.g.types = st.g.types := by
  rw [addChildren_eq entry k st]
  refine ⟨⟨by simp, ⟨List.range' st.counter k, by simp⟩,
    ⟨(List.range' st.counter k).map fun c => Edge.mk entry c false, by simp, ?_⟩⟩, ?_, rfl⟩
  · intro e hme
    simp only [List.mem_map, List.mem_range'_1] at hme
    obtain ⟨c, hc, rfl⟩ := hme
    exact lt_of_lt_of_le he hc.1
  · intro c hc
    simp only [List.mem_range'_1] at hc
    simp only []
    omega

lemma processChildren_nil (f : Nat → BuildState → BuildState × Nat) (st : BuildState) :
    processChildren f [] st = (st, []) := rfl

lemma processChildren_cons (f : Nat → BuildState → BuildState × Nat) (c : Nat)
    (cs : List Nat) (st : BuildState) :
    processChildren f (c :: cs) st =
      ((processChildren f cs (f c st).1).1, (f c st).2 :: (processChildren f cs (f c st).1).2) :=
  rfl

lemma processChildren_spec (f : Nat → BuildState → BuildState × Nat)
    (hf : ∀ c st, c < st.counter →
      EvolvesE st (f c st).1 ∧ (f c st).2 < (f c st).1.counter ∧
      (f c st).1.g.types = st.g.types) :
    ∀ (cs : List Nat) (st : BuildState), (∀ c ∈ cs, c < st.counter) →
      EvolvesE st (processChildren f cs st).1 ∧
      (∀ l ∈ (processChildren f cs st).2, l < (processChildren f cs st).1.counter) ∧
      (processChildren f cs st).1.g.types = st.g.types
  | [], st, _ => ⟨evolvesE_refl st, by simp [processChildren_nil], rfl⟩
  | c :: cs, st, hcs => by
    have hc := hf c st (hcs c (by simp))
    have hrest : ∀ x ∈ cs, x < (f c st).1.counter :=
      fun x hx => lt_of_lt_of_le (hcs x (by simp [hx])) hc.1.1
    have ih := processChildren_spec f hf cs (f c st).1 hrest
    rw [processChildren_cons]
    refine ⟨evolvesE_trans hc.1 ih.1, ?_, by rw [ih.2.2, hc.2.2]⟩
    intro l hl
    rcases List.mem_cons.mp hl with h | h
    · exact lt_of_lt_of_le (h ▸ hc.2.1) ih.1.1
    · exact ih.2.1 l h

lemma forkStep_eq (f : Nat → BuildState → BuildState × Nat) (it : Nat → Nat)
    (entry : Nat) (st0 : BuildState) (stP : BuildState) (children : List Nat)
    (stQ : BuildState) (leafs : List Nat)
    (hP : addChildren entry (it st0.ii) (consumeI st0) = (stP, children))
    (hQ : processChildren f children stP = (stQ, leafs)) :
    forkStep f it entry st0 =
      (addEdge entry stQ.counter true
        (leafs.foldl (fun s leaf => addEdge leaf stQ.counter false s)
          (addNode stQ.counter { stQ with counter := stQ.counter + 1 })), stQ.counter) := by
  simp only [forkStep, hP, hQ]

/-- Invariant of one fork step, given the invariant of the recursive calls:
only nodes and id-increasing edges are appended, `type` attributes are
untouched, the returned join node id is fresh (at least the initial counter,
below the final counter), and the very last appended edge is the indirect
edge from `entry` to the join. -/
lemma forkStep_spec (f : Nat → BuildState → BuildState × Nat) (it : Nat → Nat)
    (hf : ∀ c st, c < st.counter →
      EvolvesE st (f c st).1 ∧ (f c st).2 < (f c st).1.counter ∧
      (f c st).1.g.types = st.g.types)
    (entry : Nat) (st0 : BuildState) (he : entry < st0.counter) :
    EvolvesE st0 (forkStep f it entry st0).1 ∧
      (forkStep f it entry st0).2 < (forkStep f it entry st0).1.counter ∧
      (forkStep f it entry st0).1.g.types = st0.g.types ∧
      st0.counter ≤ (forkStep f it entry st0).2 ∧
      (∃ mid, (forkStep f it entry st0).1.g.edges =
        st0.g.edges ++ mid ++ [Edge.mk entry (forkStep f it entry st0).2 true]) := by
  rcases hP : addChildren entry (it st0.ii) (consumeI st0) with ⟨stP, children⟩
  rcases hQ : processChildren f children stP with ⟨stQ, leafs⟩
  have hac := addChildren_spec entry (it st0.ii) (consumeI st0) he
  rw [hP] at hac
  have hpc := processChildren_spec f hf children stP hac.2.1
  rw [hQ] at hpc
  have hevP : EvolvesE st0 stP := evolvesE_trans (evolvesE_consumeI st0) hac.1
  have hevQ : EvolvesE st0 stQ := evolvesE_trans hevP hpc.1
  have hfold := list_foldl_addEdge stQ.counter leafs
    (addNode stQ.counter { stQ with counter := stQ.counter + 1 })
  rw [forkStep_eq f it entry st0 stP children stQ leafs hP hQ]
  have hevFold : EvolvesE stQ
      (leafs.foldl (fun s leaf => addEdge leaf stQ.counter false s)
        (addNode stQ.counter { stQ with counter := stQ.counter + 1 })) := by
    refine evolvesE_trans (evolvesE_addNode stQ.counter stQ) ?_
    rw [hfold]
    refine ⟨le_refl _, ⟨[], by simp [addNode]⟩,
      ⟨leafs.map fun l => Edge.mk l stQ.counter false, by simp [addNode], ?_⟩⟩
    intro e hme
    simp only [List.mem_map] at hme
    obtain ⟨l, hl, rfl⟩ := hme
    exact hpc.2.1 l hl
  have heQ : entry < stQ.counter := lt_of_lt_of_le he hevQ.1
  constructor
  · exact evolvesE_trans hevQ (evolvesE_trans hevFold (evolvesE_addEdge true _ heQ))
  refine ⟨?_, ?_, hevQ.1, ?_⟩
  · rw [hfold]
    exact Nat.lt_succ_self _
  · rw [hfold]
    exact (hpc.2.2).trans hac.2.2
  · obtain ⟨de, hde, _⟩ := (evolvesE_trans hevQ hevFold).2.2
    refine ⟨de, ?_⟩
    rw [addEdge_edges, hde]

/-- Main invariant of `recursive_fork_join`: starting from a state whose
entry id is already allocated, the call only appends nodes and id-increasing
edges, never touches node `type` attributes, and returns an output node id
below the final counter. -/
lemma rfj_spec (mfd mf : Nat) (etp : Rat) (fl : Nat → Rat) (it : Nat → Nat) :
    ∀ (d entry : Nat) (st : BuildState), entry < st.counter →
      EvolvesE st (recursiveForkJoin mfd mf etp fl it d entry st).1 ∧
      (recursiveForkJoin mfd mf etp fl it d entry st).2 <
        (recursiveForkJoin mfd mf etp fl it d entry st).1.counter ∧
      (recursiveForkJoin mfd mf etp fl it d entry st).1.g.types = st.g.types
  | 0, entry, st, he => ⟨evolvesE_refl st, he, rfl⟩
  | d + 1, entry, st, he => by
    have ih := fun c s hc => rfj_spec mfd mf etp fl it d c s hc
    rw [recursiveForkJoin]
    by_cases h1 : d + 1 < mfd
    · simp only [if_pos h1]
      by_cases h2 : fl st.fi < etp
      · simp only [if_pos h2]
        exact ⟨evolvesE_consumeF st, he, rfl⟩
      · simp only [if_neg h2]
        have h := forkStep_spec _ it ih entry (consumeF st) he
        exact ⟨h.1, h.2.1, h.2.2.1⟩
    · simp only [if_neg h1]
      have h := forkStep_spec _ it ih entry st he
      exact ⟨h.1, h.2.1, h.2.2.1⟩


lemma rfj_spec3 (mfd mf : Nat) (etp : Rat) (fl : Nat → Rat) (it : Nat → Nat)
    (d entry : Nat) (st : BuildState) (he : entry < st.counter) :
    EvolvesE st (recursiveForkJoin mfd mf etp fl it d entry st).1 ∧
      (recursiveForkJoin mfd mf etp fl it d entry st).2 <
        (recursiveForkJoin mfd mf etp fl it d entry st).1.counter ∧
      (recursiveForkJoin mfd mf etp fl it d entry st).1.g.types = st.g.types :=
  rfj_spec mfd mf etp fl it d entry st he

lemma evolvesE_mem_nodes {s s' : BuildState} (h : EvolvesE s s') {n : Nat}
    (hn : n ∈ s.g.nodes) : n ∈ s'.g.nodes := by
  obtain ⟨_, ⟨dn, hdn⟩, _⟩ := h
  rw [hdn]
  exact List.mem_append_left _ hn

lemma evolvesE_randomChoiceN (it : Nat → Nat) (cv : ConfigValue Nat) (st : BuildState) :
    EvolvesE st (randomChoiceN it cv st).2 := by
  cases cv
  · exact evolvesE_refl st
  · exact evolvesE_consumeI st

lemma evolvesE_randomChoiceQ (it : Nat → Nat) (cv : ConfigValue Rat) (st : BuildState) :
    EvolvesE st (randomChoiceQ it cv st).2 := by
  cases cv
  · exact evolvesE_refl st
  · exact evolvesE_consumeI st

lemma randomChoiceN_g (it : Nat → Nat) (cv : ConfigValue Nat) (st : BuildState) :
    (randomChoiceN it cv st).2.g = st.g := by
  cases cv <;> rfl

lemma randomChoiceN_counter (it : Nat → Nat) (cv : ConfigValue Nat) (st : BuildState) :
    (randomChoiceN it cv st).2.counter = st.counter := by
  cases cv <;> rfl

lemma randomChoiceQ_g (it : Nat → Nat) (cv : ConfigValue Rat) (st : BuildState) :
    (randomChoiceQ it cv st).2.g = st.g := by
  cases cv <;> rfl

lemma randomChoiceQ_counter (it : Nat → Nat) (cv : ConfigValue Rat) (st : BuildState) :
    (randomChoiceQ it cv st).2.counter = st.counter := by
  cases cv <;> rfl

lemma sourceLoop_succ (mfd mf : Nat) (etp : Rat) (fl : Nat → Rat) (it : Nat → Nat)
    (k : Nat) (st : BuildState) :
    sourceLoop mfd mf etp fl it (k + 1) st =
      ((sourceLoop mfd mf etp fl it k
          (recursiveForkJoin mfd mf etp fl it mfd st.counter
            (setType st.counter "source"
              (addNode st.counter { st with counter := st.counter + 1 }))).1).1,
       (recursiveForkJoin mfd mf etp fl it mfd st.counter
          (setType st.counter "source"
            (addNode st.counter { st with counter := st.counter + 1 }))).2 ::
       (sourceLoop mfd mf etp fl it k
          (recursiveForkJoin mfd mf etp fl it mfd st.counter
            (setType st.counter "source"
              (addNode st.counter { st with counter := st.counter + 1 }))).1).2) := rfl

/-- Invariant of the source loop: state evolution, bounded output ids, one
output per slot, and exactly `n` fresh nodes tagged `source` pushed onto the
type map. -/
lemma sourceLoop_spec (mfd mf : Nat) (etp : Rat) (fl : Nat → Rat) (it : Nat → Nat) :
    ∀ (n : Nat) (st : BuildState),
      EvolvesE st (sourceLoop mfd mf etp fl it n st).1 ∧
      (∀ o ∈ (sourceLoop mfd mf etp fl it n st).2,
        o < (sourceLoop mfd mf etp fl it n st).1.counter) ∧
      (sourceLoop mfd mf etp fl it n st).2.length = n ∧
      ∃ entries : List Nat, entries.length = n ∧
        (sourceLoop mfd mf etp fl it n st).1.g.types =
          (entries.map fun e => (e, "source")) ++ st.g.types ∧
        entries.Nodup ∧
        ∀ e ∈ entries, st.counter ≤ e ∧ e ∈ (sourceLoop mfd mf etp fl it n st).1.g.nodes
  | 0, st =>
    ⟨evolvesE_refl st, by simp [sourceLoop], by simp [sourceLoop],
      ⟨[], rfl, by simp [sourceLoop], List.nodup_nil, by simp⟩⟩
  | n + 1, st => by
    have hstep : EvolvesE st
        (setType st.counter "source" (addNode st.counter { st with counter := st.counter + 1 })) :=
      evolvesE_trans (evolvesE_addNode st.counter st)
        (evolvesE_setType st.counter "source" _)
    have hr := rfj_spec3 mfd mf etp fl it mfd st.counter
      (setType st.counter "source" (addNode st.counter { st with counter := st.counter + 1 }))
      (Nat.lt_succ_self st.counter)
    have ih := sourceLoop_spec mfd mf etp fl it n
      (recursiveForkJoin mfd mf etp fl it mfd st.counter
        (setType st.counter "source" (addNode st.counter { st with counter := st.counter + 1 }))).1
    rw [sourceLoop_succ]
    obtain ⟨ihev, ihlt, ihlen, entries, hlen, hty, hnd, hent⟩ := ih
    refine ⟨evolvesE_trans hstep (evolvesE_trans hr.1 ihev), ?_, by simpa using ihlen,
      entries ++ [st.counter], by simp [hlen], ?_, ?_, ?_⟩
    · intro o ho
      rcases List.mem_cons.mp ho with rfl | ho
      · exact lt_of_lt_of_le hr.2.1 ihev.1
      · exact ihlt o ho
    · rw [hty, hr.2.2, setType_types]
      simp [addNode_types]
    · rw [List.nodup_append]
      refine ⟨hnd, List.nodup_singleton _, ?_⟩
      intro a ha hb
      have h1 := (hent a ha).1
      have h2 : a = st.counter := by simpa using hb
      have h3 : st.counter + 1 ≤ (recursiveForkJoin mfd mf etp fl it mfd st.counter
        (setType st.counter "source"
          (addNode st.counter { st with counter := st.counter + 1 }))).1.counter := hr.1.1
      omega
    · intro e he
      rcases List.mem_append.mp he with he | he
      · have h1 := hent e he
        have h3 : st.counter + 1 ≤ (recursiveForkJoin mfd mf etp fl it mfd st.counter
          (setType st.counter "source"
            (addNode st.counter { st with counter := st.counter + 1 }))).1.counter := hr.1.1
        exact ⟨by omega, h1.2⟩
      · have h2 : e = st.counter := by simpa using he
        subst h2
        refine ⟨le_refl _, ?_⟩
        refine evolvesE_mem_nodes ihev (evolvesE_mem_nodes hr.1 ?_)
        simp [setType, addNode]

/-- Invariant of the merge step: state evolution and a final output id below
the counter, with `type` attributes untouched. -/
lemma mergePhase_spec (outs : List Nat) (st : BuildState) (hne : outs ≠ [])
    (hlt : ∀ o ∈ outs, o < st.counter) :
    EvolvesE st (mergePhase outs st).1 ∧
      (mergePhase outs st).2 < (mergePhase outs st).1.counter ∧
      (mergePhase outs st).1.g.types = st.g.types := by
  by_cases h : 1 < outs.length
  · have hfold := list_foldl_addEdge st.counter outs
      (addNode st.counter { st with counter := st.counter + 1 })
    simp only [mergePhase, if_pos h]
    refine ⟨?_, ?_, ?_⟩
    · refine evolvesE_trans (evolvesE_addNode st.counter st) ?_
      rw [hfold]
      refine ⟨le_refl _, ⟨[], by simp [addNode]⟩,
        ⟨outs.map fun o => Edge.mk o st.counter false, by simp [addNode], ?_⟩⟩
      intro e hme
      simp only [List.mem_map] at hme
      obtain ⟨o, ho, rfl⟩ := hme
      exact hlt o ho
    · rw [hfold]
      exact Nat.lt_succ_self _
    · rw [hfold]
      rfl
  · simp only [mergePhase, if_neg h]
    refine ⟨evolvesE_refl st, ?_, by trivial⟩
    cases outs with
    | nil => exact absurd rfl hne
    | cons o os => exact hlt o (by simp)

lemma addSinks_succ (fo k : Nat) (st : BuildState) :
    addSinks fo (k + 1) st =
      addSinks fo k (setType st.counter "sink"
        (addEdge fo st.counter false (addNode st.counter { st with counter := st.counter + 1 }))) :=
  rfl

lemma addSinks_spec (fo : Nat) : ∀ (k : Nat) (st : BuildState), fo < st.counter →
    EvolvesE st (addSinks fo k st) ∧
      ∃ ts, (addSinks fo k st).g.types = ts ++ st.g.types ∧ ∀ q ∈ ts, q.2 = "sink"
  | 0, st, _ => ⟨evolvesE_refl st, ⟨[], rfl, by simp⟩⟩
  | k + 1, st, hlt => by
    have hstep : EvolvesE st (setType st.counter "sink"
        (addEdge fo st.counter false (addNode st.counter { st with counter := st.counter + 1 }))) :=
      evolvesE_trans (evolvesE_addNode st.counter st)
        (evolvesE_trans (evolvesE_addEdge false _ hlt) (evolvesE_setType _ _ _))
    have ih := addSinks_spec fo k (setType st.counter "sink"
        (addEdge fo st.counter false (addNode st.counter { st with counter := st.counter + 1 })))
      (lt_of_lt_of_le hlt (Nat.le_succ _))
    rw [addSinks_succ]
    obtain ⟨ihev, ts, hts, hsink⟩ := ih
    refine ⟨evolvesE_trans hstep ihev, ts ++ [(st.counter, "sink")], ?_, ?_⟩
    · rw [hts, setType_types, addEdge_types, addNode_types]
      simp
    · intro q hq
      rcases List.mem_append.mp hq with hq | hq
      · exact hsink q hq
      · have : q = (st.counter, "sink") := by simpa using hq
        rw [this]

/-- Invariant of the sink step: state evolution, and the only `type`
assignments pushed are `sink` tags. -/
lemma sinkPhase_spec (c : Config) (it : Nat → Nat) (fo : Nat) (st : BuildState)
    (hlt : fo < st.counter) :
    EvolvesE st (sinkPhase c it fo st) ∧
      ∃ ts, (sinkPhase c it fo st).g.types = ts ++ st.g.types ∧ ∀ q ∈ ts, q.2 = "sink" := by
  rcases hcv : c.number_of_sink_nodes with _ | cv
  · simp only [sinkPhase, hcv]
    exact ⟨evolvesE_refl st, ⟨[], rfl, by simp⟩⟩
  · simp only [sinkPhase, hcv]
    by_cases ht : truthyCVN cv
    · simp only [if_pos ht]
      by_cases h1 : (randomChoiceN it cv st).1 = 1
      · simp only [if_pos h1]
        refine ⟨evolvesE_trans (evolvesE_randomChoiceN it cv st) (evolvesE_setType _ _ _),
          [(fo, "sink")], ?_, by simp⟩
        rw [setType_types, randomChoiceN_g]
        rfl
      · simp only [if_neg h1]
        have has := addSinks_spec fo (randomChoiceN it cv st).1 (randomChoiceN it cv st).2
          (by rw [randomChoiceN_counter]; exact hlt)
        obtain ⟨hev, ts, hts, hsink⟩ := has
        refine ⟨evolvesE_trans (evolvesE_randomChoiceN it cv st) hev, ts, ?_, hsink⟩
        rw [hts, randomChoiceN_g]
    · simp only [if_neg ht]
      exact ⟨evolvesE_refl st, ⟨[], rfl, by simp⟩⟩

lemma orOne_pos (o : Option Nat) : 0 < orOne o := by
  rcases o with _ | k
  · simp [orOne]
  · cases k <;> simp [orOne]

lemma buildOne_eq (c : Config) (fl : Nat → Rat) (it : Nat → Nat) (fi ii : Nat)
    (etp : Rat) (st1 stS : BuildState) (outs : List Nat) (stM : BuildState) (fo : Nat)
    (hE : randomChoiceQ it c.early_termination_prob (initialState fi ii) = (etp, st1))
    (hS : sourceLoop (maxForkDepth c) (maxFork c) etp fl it
      (orOne (getOptionMinN c.number_of_source_nodes)) st1 = (stS, outs))
    (hM : mergePhase outs stS = (stM, fo)) :
    buildOne c fl it fi ii = sinkPhase c it fo stM := by
  simp only [buildOne, hE, hS, hM]

/-- The whole per-DAG construction evolves from the empty initial state. -/
lemma buildOne_evolves (c : Config) (fl : Nat → Rat) (it : Nat → Nat) (fi ii : Nat) :
    EvolvesE (initialState fi ii) (buildOne c fl it fi ii) := by
  rcases hE : randomChoiceQ it c.early_termination_prob (initialState fi ii) with ⟨etp, st1⟩
  rcases hS : sourceLoop (maxForkDepth c) (maxFork c) etp fl it
      (orOne (getOptionMinN c.number_of_source_nodes)) st1 with ⟨stS, outs⟩
  rcases hM : mergePhase outs stS with ⟨stM, fo⟩
  have h1 : EvolvesE (initialState fi ii) st1 := by
    have h := evolvesE_randomChoiceQ it c.early_termination_prob (initialState fi ii)
    rwa [hE] at h
  have hsl := sourceLoop_spec (maxForkDepth c) (maxFork c) etp fl it
    (orOne (getOptionMinN c.number_of_source_nodes)) st1
  rw [hS] at hsl
  have hne : outs ≠ [] := by
    have hl := hsl.2.2.1
    have hpos := orOne_pos (getOptionMinN c.number_of_source_nodes)
    intro hout
    rw [hout] at hl
    simp at hl
    omega
  have hmp := mergePhase_spec outs stS hne hsl.2.1
  rw [hM] at hmp
  have hsp := sinkPhase_spec c it fo stM hmp.2.1
  rw [buildOne_eq c fl it fi ii etp st1 stS outs stM fo hE hS hM]
  exact evolvesE_trans h1 (evolvesE_trans hsl.1 (evolvesE_trans hmp.1 hsp.1))

/-- All edges of a generated graph go strictly upward in node id. -/
lemma buildOne_ordered (c : Config) (fl : Nat → Rat) (it : Nat → Nat) (fi ii : Nat) :
    EdgesOrdered (buildOne c fl it fi ii).g := by
  obtain ⟨_, _, de, hde, hord⟩ := buildOne_evolves c fl it fi ii
  intro e he
  rw [hde] at he
  exact hord e (by simpa [initialState] using he)

lemma buildAux_mem (c : Config) (fl : Nat → Rat) (it : Nat → Nat) :
    ∀ (k fi ii : Nat) (g : DiGraph), g ∈ buildAux c fl it k fi ii →
      ∃ a b, g = (buildOne c fl it a b).g
  | 0, fi, ii, g, h => absurd h (by simp [buildAux])
  | k + 1, fi, ii, g, h => by
    rw [buildAux] at h
    rcases List.mem_cons.mp h with h | h
    · exact ⟨fi, ii, h⟩
    · exact buildAux_mem c fl it k _ _ g h

lemma transGen_lt {r : Nat → Nat → Prop} (hr : ∀ u v, r u v → u < v) :
    ∀ {a b : Nat}, Relation.TransGen r a b → a < b := by
  intro a b h
  induction h with
  | single h1 => exact hr _ _ h1
  | tail _ h1 ihh => exact lt_trans ihh (hr _ _ h1)

/-- Claim C1: every graph yielded by `ForkJoinBuilder.build` is acyclic — no
node is reachable from itself along directed edges, counting both regular
edges and edges tagged indirect. -/
theorem claim_C1_acyclic (c : Config) (fl : Nat → Rat) (it : Nat → Nat) :
    ∀ g ∈ forkJoinBuild c fl it, ∀ a, ¬ Relation.TransGen (hasEdge g) a a := by
  intro g hg a hcyc
  obtain ⟨fi, ii, rfl⟩ := buildAux_mem c fl it c.number_of_dags 0 0 g hg
  have hord := buildOne_ordered c fl it fi ii
  have hlt := transGen_lt (r := hasEdge (buildOne c fl it fi ii).g)
    (fun u v huv => by obtain ⟨b, hb⟩ := huv; exact hord _ hb) hcyc
  exact lt_irrefl a hlt

/-- Witness for C1 at a concrete configuration and oracle streams. -/
theorem claim_C1_acyclic_witness :
    ¬ Relation.TransGen (hasEdge (buildOne baseCfg flZ (itK 2) 0 0).g) 0 0 :=
  claim_C1_acyclic baseCfg flZ (itK 2) (buildOne baseCfg flZ (itK 2) 0 0).g
    (by decide) 0


lemma processChildrenRec_proj (f' : Nat → BuildState → BuildState × Nat × List ForkRec)
    (f : Nat → BuildState → BuildState × Nat)
    (hff1 : ∀ c st, (f' c st).1 = (f c st).1)
    (hff2 : ∀ c st, (f' c st).2.1 = (f c st).2) :
    ∀ (cs : List Nat) (st : BuildState),
      (processChildrenRec f' cs st).1 = (processChildren f cs st).1 ∧
      (processChildrenRec f' cs st).2.1 = (processChildren f cs st).2
  | [], _ => ⟨rfl, rfl⟩
  | c :: cs, st => by
    have ih := processChildrenRec_proj f' f hff1 hff2 cs (f' c st).1
    simp only [processChildrenRec, processChildren]
    constructor
    · rw [ih.1, hff1 c st]
    · rw [ih.2, hff2 c st, hff1 c st]

lemma forkStepRec_proj (f' : Nat → BuildState → BuildState × Nat × List ForkRec)
    (f : Nat → BuildState → BuildState × Nat) (it : Nat → Nat)
    (hff1 : ∀ c st, (f' c st).1 = (f c st).1)
    (hff2 : ∀ c st, (f' c st).2.1 = (f c st).2)
    (entry : Nat) (st0 : BuildState) :
    (forkStepRec f' it entry st0).1 = (forkStep f it entry st0).1 ∧
    (forkStepRec f' it entry st0).2.1 = (forkStep f it entry st0).2 := by
  have hpc := processChildrenRec_proj f' f hff1 hff2
    (addChildren entry (it st0.ii) (consumeI st0)).2
    (addChildren entry (it st0.ii) (consumeI st0)).1
  simp only [forkStepRec, forkStep]
  constructor
  · rw [hpc.1, hpc.2]
  · rw [hpc.1]

lemma rfjRec_proj (mfd mf : Nat) (etp : Rat) (fl : Nat → Rat) (it : Nat → Nat) :
    ∀ (d entry : Nat) (st : BuildState),
      (recursiveForkJoinRec mfd mf etp fl it d entry st).1 =
        (recursiveForkJoin mfd mf etp fl it d entry st).1 ∧
      (recursiveForkJoinRec mfd mf etp fl it d entry st).2.1 =
        (recursiveForkJoin mfd mf etp fl it d entry st).2
  | 0, _, _ => ⟨rfl, rfl⟩
  | d + 1, entry, st => by
    have ih1 := fun e s => (rfjRec_proj mfd mf etp fl it d e s).1
    have ih2 := fun e s => (rfjRec_proj mfd mf etp fl it d e s).2
    rw [recursiveForkJoinRec, recursiveForkJoin]
    by_cases h1 : d + 1 < mfd
    · simp only [if_pos h1]
      by_cases h2 : fl st.fi < etp
      · simp only [if_pos h2]
        exact ⟨by trivial, by trivial⟩
      · simp only [if_neg h2]
        exact forkStepRec_proj _ _ it ih1 ih2 entry (consumeF st)
    · simp only [if_neg h1]
      exact forkStepRec_proj _ _ it ih1 ih2 entry st

lemma sourceLoopRec_proj (mfd mf : Nat) (etp : Rat) (fl : Nat → Rat) (it : Nat → Nat) :
    ∀ (n : Nat) (st : BuildState),
      (sourceLoopRec mfd mf etp fl it n st).1 = (sourceLoop mfd mf etp fl it n st).1 ∧
      (sourceLoopRec mfd mf etp fl it n st).2.1 = (sourceLoop mfd mf etp fl it n st).2
  | 0, _ => ⟨rfl, rfl⟩
  | n + 1, st => by
    have hr := rfjRec_proj mfd mf etp fl it mfd st.counter
      (setType st.counter "source" (addNode st.counter { st with counter := st.counter + 1 }))
    have ih := sourceLoopRec_proj mfd mf etp fl it n
      (recursiveForkJoinRec mfd mf etp fl it mfd st.counter
        (setType st.counter "source" (addNode st.counter { st with counter := st.counter + 1 }))).1
    simp only [sourceLoopRec, sourceLoop]
    constructor
    · rw [ih.1, hr.1]
    · rw [ih.2, hr.2, hr.1]

lemma buildOneRec_proj (c : Config) (fl : Nat → Rat) (it : Nat → Nat) (fi ii : Nat) :
    (buildOneRec c fl it fi ii).1 = buildOne c fl it fi ii := by
  have hsl := sourceLoopRec_proj (maxForkDepth c) (maxFork c)
    (randomChoiceQ it c.early_termination_prob (initialState fi ii)).1 fl it
    (orOne (getOptionMinN c.number_of_source_nodes))
    (randomChoiceQ it c.early_termination_prob (initialState fi ii)).2
  simp only [buildOneRec, buildOne]
  rw [hsl.1, hsl.2]

lemma indirectEdges_addEdge_false (u v : Nat) (st : BuildState) :
    indirectEdges (addEdge u v false st).g = indirectEdges st.g := by
  simp [indirectEdges, addEdge_edges]

lemma indirectEdges_addEdge_true (u v : Nat) (st : BuildState) :
    indirectEdges (addEdge u v true st).g = indirectEdges st.g ++ [Edge.mk u v true] := by
  simp [indirectEdges, addEdge_edges]

lemma indirectEdges_addNode (n : Nat) (st : BuildState) :
    indirectEdges (addNode n st).g = indirectEdges st.g := rfl

lemma indirectEdges_setType (n : Nat) (t : String) (st : BuildState) :
    indirectEdges (setType n t st).g = indirectEdges st.g := rfl

lemma indirectEdges_bump (st : BuildState) (k : Nat) :
    indirectEdges { st with counter := k }.g = indirectEdges st.g := rfl

lemma indirectEdges_consumeI (st : BuildState) :
    indirectEdges (consumeI st).g = indirectEdges st.g := rfl

lemma indirectEdges_consumeF (st : BuildState) :
    indirectEdges (consumeF st).g = indirectEdges st.g := rfl

lemma indirectEdges_addChildren (entry k : Nat) (st : BuildState) :
    indirectEdges (addChildren entry k st).1.g = indirectEdges st.g := by
  rw [addChildren_eq]
  simp only [indirectEdges]
  rw [List.filter_append]
  simp
  intro a x _ _ h3
  subst h3
  rfl

lemma indirectEdges_foldl (j : Nat) (ls : List Nat) (st : BuildState) :
    indirectEdges (ls.foldl (fun s leaf => addEdge leaf j false s) st).g =
      indirectEdges st.g := by
  rw [list_foldl_addEdge]
  simp only [indirectEdges]
  rw [List.filter_append]
  simp

lemma processChildrenRec_ind (f' : Nat → BuildState → BuildState × Nat × List ForkRec)
    (hfi : ∀ c st, indirectEdges (f' c st).1.g =
      indirectEdges st.g ++ ((f' c st).2.2).map fun r => Edge.mk r.entry r.join true) :
    ∀ (cs : List Nat) (st : BuildState),
      indirectEdges (processChildrenRec f' cs st).1.g =
        indirectEdges st.g ++
          ((processChildrenRec f' cs st).2.2).map fun r => Edge.mk r.entry r.join true
  | [], st => by simp [processChildrenRec]
  | c :: cs, st => by
    have ih := processChildrenRec_ind f' hfi cs (f' c st).1
    simp only [processChildrenRec]
    rw [ih, hfi c st]
    simp

lemma forkStepRec_ind (f' : Nat → BuildState → BuildState × Nat × List ForkRec)
    (it : Nat → Nat)
    (hfi : ∀ c st, indirectEdges (f' c st).1.g =
      indirectEdges st.g ++ ((f' c st).2.2).map fun r => Edge.mk r.entry r.join true)
    (entry : Nat) (st0 : BuildState) :
    indirectEdges (forkStepRec f' it entry st0).1.g =
      indirectEdges st0.g ++
        ((forkStepRec f' it entry st0).2.2).map fun r => Edge.mk r.entry r.join true := by
  have hpc := processChildrenRec_ind f' hfi
    (addChildren entry (it st0.ii) (consumeI st0)).2
    (addChildren entry (it st0.ii) (consumeI st0)).1
  simp only [forkStepRec]
  rw [indirectEdges_addEdge_true, indirectEdges_foldl, indirectEdges_addNode,
    indirectEdges_bump, hpc, indirectEdges_addChildren, indirectEdges_consumeI]
  simp

lemma rfjRec_ind (mfd mf : Nat) (etp : Rat) (fl : Nat → Rat) (it : Nat → Nat) :
    ∀ (d entry : Nat) (st : BuildState),
      indirectEdges (recursiveForkJoinRec mfd mf etp fl it d entry st).1.g =
        indirectEdges st.g ++
          ((recursiveForkJoinRec mfd mf etp fl it d entry st).2.2).map
            fun r => Edge.mk r.entry r.join true
  | 0, entry, st => by simp [recursiveForkJoinRec]
  | d + 1, entry, st => by
    have ih := fun e s => rfjRec_ind mfd mf etp fl it d e s
    rw [recursiveForkJoinRec]
    by_cases h1 : d + 1 < mfd
    · simp only [if_pos h1]
      by_cases h2 : fl st.fi < etp
      · simp only [if_pos h2]
        simp [consumeF, indirectEdges]
      · simp only [if_neg h2]
        exact forkStepRec_ind _ it ih entry (consumeF st)
    · simp only [if_neg h1]
      exact forkStepRec_ind _ it ih entry st

lemma sourceLoopRec_ind (mfd mf : Nat) (etp : Rat) (fl : Nat → Rat) (it : Nat → Nat) :
    ∀ (n : Nat) (st : BuildState),
      indirectEdges (sourceLoopRec mfd mf etp fl it n st).1.g =
        indirectEdges st.g ++
          ((sourceLoopRec mfd mf etp fl it n st).2.2).map fun r => Edge.mk r.entry r.join true
  | 0, st => by simp [sourceLoopRec]
  | n + 1, st => by
    have hr := rfjRec_ind mfd mf etp fl it mfd st.counter
      (setType st.counter "source" (addNode st.counter { st with counter := st.counter + 1 }))
    have ih := sourceLoopRec_ind mfd mf etp fl it n
      (recursiveForkJoinRec mfd mf etp fl it mfd st.counter
        (setType st.counter "source" (addNode st.counter { st with counter := st.counter + 1 }))).1
    simp only [sourceLoopRec]
    rw [ih, hr, indirectEdges_setType, indirectEdges_addNode, indirectEdges_bump]
    simp

lemma mergePhase_ind (outs : List Nat) (st : BuildState) :
    indirectEdges (mergePhase outs st).1.g = indirectEdges st.g := by
  by_cases h : 1 < outs.length
  · simp only [mergePhase, if_pos h]
    rw [indirectEdges_foldl, indirectEdges_addNode, indirectEdges_bump]
  · simp only [mergePhase, if_neg h]

lemma addSinks_ind (fo : Nat) : ∀ (k : Nat) (st : BuildState),
    indirectEdges (addSinks fo k st).g = indirectEdges st.g
  | 0, _ => rfl
  | k + 1, st => by
    rw [addSinks_succ, addSinks_ind fo k, indirectEdges_setType,
      indirectEdges_addEdge_false, indirectEdges_addNode, indirectEdges_bump]

lemma sinkPhase_ind (c : Config) (it : Nat → Nat) (fo : Nat) (st : BuildState) :
    indirectEdges (sinkPhase c it fo st).g = indirectEdges st.g := by
  rcases hcv : c.number_of_sink_nodes with _ | cv
  · simp only [sinkPhase, hcv]
  · simp only [sinkPhase, hcv]
    by_cases ht : truthyCVN cv
    · simp only [if_pos ht]
      by_cases h1 : (randomChoiceN it cv st).1 = 1
      · simp only [if_pos h1]
        rw [indirectEdges_setType]
        exact congrArg indirectEdges (randomChoiceN_g it cv st)
      · simp only [if_neg h1]
        rw [addSinks_ind]
        exact congrArg indirectEdges (randomChoiceN_g it cv st)
    · simp only [if_neg ht]

lemma buildOneRec_ind (c : Config) (fl : Nat → Rat) (it : Nat → Nat) (fi ii : Nat) :
    indirectEdges (buildOneRec c fl it fi ii).1.g =
      ((buildOneRec c fl it fi ii).2).map fun r => Edge.mk r.entry r.join true := by
  have hsl := sourceLoopRec_ind (maxForkDepth c) (maxFork c)
    (randomChoiceQ it c.early_termination_prob (initialState fi ii)).1 fl it
    (orOne (getOptionMinN c.number_of_source_nodes))
    (randomChoiceQ it c.early_termination_prob (initialState fi ii)).2
  simp only [buildOneRec]
  rw [sinkPhase_ind, mergePhase_ind, hsl]
  rw [show indirectEdges (randomChoiceQ it c.early_termination_prob
    (initialState fi ii)).2.g = indirectEdges (initialState fi ii).g from
    congrArg indirectEdges (randomChoiceQ_g it c.early_termination_prob (initialState fi ii))]
  simp [initialState, indirectEdges]

lemma processChildrenRec_width (f' : Nat → BuildState → BuildState × Nat × List ForkRec)
    (Q : ForkRec → Prop)
    (hw : ∀ c st, ∀ r ∈ (f' c st).2.2, Q r) :
    ∀ (cs : List Nat) (st : BuildState), ∀ r ∈ (processChildrenRec f' cs st).2.2, Q r
  | [], st => by simp [processChildrenRec]
  | c :: cs, st => by
    intro r hr
    simp only [processChildrenRec] at hr
    rcases List.mem_append.mp hr with h | h
    · exact hw c st r h
    · exact processChildrenRec_width f' Q hw cs (f' c st).1 r h

lemma forkStepRec_width (f' : Nat → BuildState → BuildState × Nat × List ForkRec)
    (it : Nat → Nat) (mf : Nat) (hit : ∀ i, 1 ≤ it i ∧ it i ≤ mf)
    (hw : ∀ c st, ∀ r ∈ (f' c st).2.2, 1 ≤ r.width ∧ r.width ≤ mf)
    (entry : Nat) (st0 : BuildState) :
    ∀ r ∈ (forkStepRec f' it entry st0).2.2, 1 ≤ r.width ∧ r.width ≤ mf := by
  intro r hr
  simp only [forkStepRec] at hr
  rcases List.mem_append.mp hr with h | h
  · exact processChildrenRec_width f' _ hw _ _ r h
  · have hrr : r = ForkRec.mk entry
      (processChildrenRec f'
        (addChildren entry (it st0.ii) (consumeI st0)).2
        (addChildren entry (it st0.ii) (consumeI st0)).1).1.counter (it st0.ii) := by
      simpa using h
    rw [hrr]
    exact hit st0.ii

lemma rfjRec_width (mfd mf : Nat) (etp : Rat) (fl : Nat → Rat) (it : Nat → Nat)
    (hit : ∀ i, 1 ≤ it i ∧ it i ≤ mf) :
    ∀ (d entry : Nat) (st : BuildState),
      ∀ r ∈ (recursiveForkJoinRec mfd mf etp fl it d entry st).2.2,
        1 ≤ r.width ∧ r.width ≤ mf
  | 0, entry, st => by simp [recursiveForkJoinRec]
  | d + 1, entry, st => by
    have ih := fun e s => rfjRec_width mfd mf etp fl it hit d e s
    rw [recursiveForkJoinRec]
    by_cases h1 : d + 1 < mfd
    · simp only [if_pos h1]
      by_cases h2 : fl st.fi < etp
      · simp only [if_pos h2]
        simp
      · simp only [if_neg h2]
        exact forkStepRec_width _ it mf hit ih entry (consumeF st)
    · simp only [if_neg h1]
      exact forkStepRec_width _ it mf hit ih entry st

lemma sourceLoopRec_width (mfd mf : Nat) (etp : Rat) (fl : Nat → Rat) (it : Nat → Nat)
    (hit : ∀ i, 1 ≤ it i ∧ it i ≤ mf) :
    ∀ (n : Nat) (st : BuildState),
      ∀ r ∈ (sourceLoopRec mfd mf etp fl it n st).2.2, 1 ≤ r.width ∧ r.width ≤ mf
  | 0, st => by simp [sourceLoopRec]
  | n + 1, st => by
    intro r hr
    simp only [sourceLoopRec] at hr
    rcases List.mem_append.mp hr with h | h
    · exact rfjRec_width mfd mf etp fl it hit mfd st.counter _ r h
    · exact sourceLoopRec_width mfd mf etp fl it hit n _ r h

lemma buildOneRec_width (c : Config) (fl : Nat → Rat) (it : Nat → Nat) (fi ii : Nat)
    (hit : ∀ i, 1 ≤ it i ∧ it i ≤ maxFork c) :
    ∀ r ∈ (buildOneRec c fl it fi ii).2, 1 ≤ r.width ∧ r.width ≤ maxFork c := by
  intro r hr
  simp only [buildOneRec] at hr
  exact sourceLoopRec_width (maxForkDepth c) (maxFork c) _ fl it hit _ _ r hr

/-- Claim C2: in every generated graph, the indirect edges are exactly, in
order, one edge per fork/join level executed, running from that level's
entry (fork) node to the join node allocated in the same recursive call; in
particular their number equals the number of join nodes created.  The ghost
record list of the instrumented builder is tied to the real builder by the
first conjunct. -/
theorem claim_C2_indirect_edges (c : Config) (fl : Nat → Rat) (it : Nat → Nat) (fi ii : Nat) :
    (buildOneRec c fl it fi ii).1 = buildOne c fl it fi ii ∧
    indirectEdges (buildOne c fl it fi ii).g =
      ((buildOneRec c fl it fi ii).2).map (fun r => Edge.mk r.entry r.join true) ∧
    (indirectEdges (buildOne c fl it fi ii).g).length = (buildOneRec c fl it fi ii).2.length := by
  have hp := buildOneRec_proj c fl it fi ii
  have hi := buildOneRec_ind c fl it fi ii
  rw [hp] at hi
  exact ⟨hp, hi, by rw [hi, List.length_map]⟩

/-- Claim C5 (amended): for every fork actually created, the number of
children lies in `[1, max(nr_fork)]` — the lower bound is the hard-coded 1 of
`random.randint(1, self._max_fork)`, not the configured minimum.  The
hypothesis is the `randint` contract for the integer oracle. -/
theorem claim_C5_amended (c : Config) (fl : Nat → Rat) (it : Nat → Nat) (fi ii : Nat)
    (hit : ∀ i, 1 ≤ it i ∧ it i ≤ maxFork c) :
    (buildOneRec c fl it fi ii).1 = buildOne c fl it fi ii ∧
    ∀ r ∈ (buildOneRec c fl it fi ii).2, 1 ≤ r.width ∧ r.width ≤ maxFork c :=
  ⟨buildOneRec_proj c fl it fi ii, buildOneRec_width c fl it fi ii hit⟩

/-- Witness for the amended C5 at a concrete input (the single fork of the
base configuration has width 1). -/
theorem claim_C5_amended_witness :
    1 ≤ (ForkRec.mk 0 2 1).width ∧ (ForkRec.mk 0 2 1).width ≤ maxFork baseCfg :=
  (claim_C5_amended baseCfg flZ (itK 1) 0 0
    (fun _ => ⟨le_refl 1, show (1 : Nat) ≤ 2 by decide⟩)).2 (ForkRec.mk 0 2 1) (by decide)

/-- Counterexample for C5 as stated: with `nr_fork = [2, 2]` (configured
minimum 2) and a legal `randint(1, 2)` draw of 1, the built graph contains a
fork of width 1, outside the configured `[min, max]` bound.  The
configuration passes validation. -/
theorem claim_C5_counterexample :
    validateConfig cfgFork22 = Except.ok () ∧
    cfgFork22.nr_fork = ConfigValue.vals [2, 2] ∧
    (1 ≤ itK 1 0 ∧ itK 1 0 ≤ maxFork cfgFork22) ∧
    ((buildOneRec cfgFork22 flZ (itK 1) 0 0).2.map ForkRec.width) = [1] ∧
    getOptionMinN (some cfgFork22.nr_fork) = some 2 :=
  ⟨rfl, rfl, by decide, by decide, by decide⟩


lemma rfjRec_top_recs_ne (mfd mf : Nat) (etp : Rat) (fl : Nat → Rat) (it : Nat → Nat)
    (entry : Nat) (st : BuildState) (hd : 1 ≤ mfd) :
    (recursiveForkJoinRec mfd mf etp fl it mfd entry st).2.2 ≠ [] := by
  obtain ⟨d, rfl⟩ : ∃ d, mfd = d + 1 := ⟨mfd - 1, by omega⟩
  rw [recursiveForkJoinRec]
  simp only [if_neg (lt_irrefl (d + 1))]
  simp [forkStepRec]

lemma buildOneRec_recs_ne (c : Config) (fl : Nat → Rat) (it : Nat → Nat) (fi ii : Nat)
    (hd : 1 ≤ maxForkDepth c) :
    (buildOneRec c fl it fi ii).2 ≠ [] := by
  obtain ⟨n, hn⟩ : ∃ n, orOne (getOptionMinN c.number_of_source_nodes) = n + 1 :=
    ⟨orOne (getOptionMinN c.number_of_source_nodes) - 1,
      by have := orOne_pos (getOptionMinN c.number_of_source_nodes); omega⟩
  simp only [buildOneRec, hn, sourceLoopRec]
  intro h
  rcases List.append_eq_nil.mp h with ⟨h1, _⟩
  exact rfjRec_top_recs_ne (maxForkDepth c) (maxFork c) _ fl it _ _ hd h1

/-- Claim C3 (amended): the recursive builder returns its entry unchanged at
depth 0; early termination requires depth < max fork depth, so a call at
depth ≥ max fork depth (in particular the first level, at depth = max fork
depth) always forks, appending an indirect edge from the entry to a fresh
join node; hence every generated DAG whose max fork depth is at least 1
contains at least one fork.  As stated, the claim fails for max fork depth 0
(see the counterexample). -/
theorem claim_C3_amended (mfd mf : Nat) (etp : Rat) (fl : Nat → Rat) (it : Nat → Nat) :
    (∀ (entry : Nat) (st : BuildState),
      recursiveForkJoin mfd mf etp fl it 0 entry st = (st, entry)) ∧
    (∀ (d entry : Nat) (st : BuildState), entry < st.counter → mfd ≤ d + 1 →
      st.counter ≤ (recursiveForkJoin mfd mf etp fl it (d + 1) entry st).2 ∧
      ∃ mid, (recursiveForkJoin mfd mf etp fl it (d + 1) entry st).1.g.edges =
        st.g.edges ++ mid ++
          [Edge.mk entry (recursiveForkJoin mfd mf etp fl it (d + 1) entry st).2 true]) ∧
    (∀ (c : Config) (fi ii : Nat), 1 ≤ maxForkDepth c →
      indirectEdges (buildOne c fl it fi ii).g ≠ []) := by
  refine ⟨fun entry st => rfl, ?_, ?_⟩
  · intro d entry st he hd
    rw [recursiveForkJoin]
    simp only [if_neg (show ¬ d + 1 < mfd by omega)]
    have h := forkStep_spec (recursiveForkJoin mfd mf etp fl it d) it
      (fun e s hc => rfj_spec3 mfd mf etp fl it d e s hc) entry st he
    exact ⟨h.2.2.2.1, h.2.2.2.2⟩
  · intro c fi ii hd
    have hne := buildOneRec_recs_ne c fl it fi ii hd
    have hi := buildOneRec_ind c fl it fi ii
    rw [buildOneRec_proj c fl it fi ii] at hi
    rw [hi]
    simpa using hne

/-- Witness for the amended C3 at concrete inputs. -/
theorem claim_C3_amended_witness :
    recursiveForkJoin 1 2 0 flZ (itK 2) 0 7 stW = (stW, 7) ∧
    (stW.counter ≤ (recursiveForkJoin 1 2 0 flZ (itK 2) 1 0 stW).2 ∧
      ∃ mid, (recursiveForkJoin 1 2 0 flZ (itK 2) 1 0 stW).1.g.edges =
        stW.g.edges ++ mid ++
          [Edge.mk 0 (recursiveForkJoin 1 2 0 flZ (itK 2) 1 0 stW).2 true]) ∧
    indirectEdges (buildOne baseCfg flZ (itK 2) 0 0).g ≠ [] :=
  ⟨(claim_C3_amended 1 2 0 flZ (itK 2)).1 7 stW,
   (claim_C3_amended 1 2 0 flZ (itK 2)).2.1 0 0 stW (by decide) (by decide),
   (claim_C3_amended 1 2 0 flZ (itK 2)).2.2 baseCfg 0 0 (by decide)⟩

/-- Counterexample for C3 as stated: a configuration with `fork_depth = 0`
passes validation and yields a graph with a single node and no edges at all —
in particular no fork — refuting that every generated DAG contains at least
one fork. -/
theorem claim_C3_counterexample :
    validateConfig cfgDepth0 = Except.ok () ∧
    (buildOne cfgDepth0 flZ (itK 1) 0 0).g.nodes = [0] ∧
    (buildOne cfgDepth0 flZ (itK 1) 0 0).g.edges = [] :=
  ⟨rfl, by decide, by decide⟩

/-- Claim C4: with early-termination probability 1 (and the `random.random`
contract that every draw is < 1), every recursive call past the first level —
that is, at depth < max fork depth — stops immediately: it returns its entry
node with the graph and counter unchanged; consequently the leaf list
collected for the first level's children is the children list itself, so no
fork exists at recursion level 2 or deeper. -/
theorem claim_C4_prob_one (mfd mf : Nat) (fl : Nat → Rat) (it : Nat → Nat)
    (hfl : ∀ i, fl i < 1) :
    (∀ (d entry : Nat) (st : BuildState), d < mfd →
      (recursiveForkJoin mfd mf 1 fl it d entry st).1.g = st.g ∧
      (recursiveForkJoin mfd mf 1 fl it d entry st).2 = entry ∧
      (recursiveForkJoin mfd mf 1 fl it d entry st).1.counter = st.counter) ∧
    (∀ (d : Nat) (cs : List Nat) (st : BuildState), d < mfd →
      (processChildren (recursiveForkJoin mfd mf 1 fl it d) cs st).2 = cs ∧
      (processChildren (recursiveForkJoin mfd mf 1 fl it d) cs st).1.g = st.g) := by
  have h1 : ∀ (d entry : Nat) (st : BuildState), d < mfd →
      (recursiveForkJoin mfd mf 1 fl it d entry st).1.g = st.g ∧
      (recursiveForkJoin mfd mf 1 fl it d entry st).2 = entry ∧
      (recursiveForkJoin mfd mf 1 fl it d entry st).1.counter = st.counter := by
    intro d entry st hd
    cases d with
    | zero => exact ⟨rfl, rfl, rfl⟩
    | succ d =>
      rw [recursiveForkJoin]
      simp only [if_pos hd, if_pos (hfl st.fi)]
      exact ⟨by trivial, by trivial, by trivial⟩
  refine ⟨h1, ?_⟩
  intro d cs st hd
  induction cs generalizing st with
  | nil => exact ⟨rfl, rfl⟩
  | cons c cs ihc =>
    have hc := h1 d c st hd
    have ih := ihc (recursiveForkJoin mfd mf 1 fl it d c st).1
    simp only [processChildren_cons]
    exact ⟨by rw [hc.2.1, ih.1], by rw [ih.2, hc.1]⟩

/-- Witness for C4 at concrete inputs (max fork depth 2, call depth 1). -/
theorem claim_C4_prob_one_witness :
    ((recursiveForkJoin 2 2 1 flZ (itK 1) 1 5 stW).1.g = stW.g ∧
      (recursiveForkJoin 2 2 1 flZ (itK 1) 1 5 stW).2 = 5 ∧
      (recursiveForkJoin 2 2 1 flZ (itK 1) 1 5 stW).1.counter = stW.counter) ∧
    ((processChildren (recursiveForkJoin 2 2 1 flZ (itK 1) 1) [3, 4] stW).2 = [3, 4] ∧
      (processChildren (recursiveForkJoin 2 2 1 flZ (itK 1) 1) [3, 4] stW).1.g = stW.g) :=
  ⟨(claim_C4_prob_one 2 2 flZ (itK 1)
      (fun _ => show (0 : Rat) < 1 by decide)).1 1 5 stW (by decide),
   (claim_C4_prob_one 2 2 flZ (itK 1)
      (fun _ => show (0 : Rat) < 1 by decide)).2 1 [3, 4] stW (by decide)⟩


lemma getD_le_orOne (o : Option Nat) : o.getD 1 ≤ orOne o := by
  rcases o with _ | k
  · simp [orOne]
  · cases k <;> simp [orOne]

/-- Claim C6 (amended): at the start of each DAG the number of source slots
is `Util.get_option_min(number_of_source_nodes) or 1` — the minimum of the
configured value-or-range, defaulting to 1 when the parameter is omitted or
0 — not a random sample; the source phase then allocates that many distinct
fresh nodes, tags each `source` (and nothing else), runs the recursive
builder on each, and collects one output per slot. -/
theorem claim_C6_amended (c : Config) (fl : Nat → Rat) (it : Nat → Nat) (fi ii : Nat) :
    (sourceLoop (maxForkDepth c) (maxFork c)
        (randomChoiceQ it c.early_termination_prob (initialState fi ii)).1 fl it
        (orOne (getOptionMinN c.number_of_source_nodes))
        (randomChoiceQ it c.early_termination_prob (initialState fi ii)).2).2.length =
      orOne (getOptionMinN c.number_of_source_nodes) ∧
    ∃ entries : List Nat,
      entries.length = orOne (getOptionMinN c.number_of_source_nodes) ∧
      entries.Nodup ∧
      (sourceLoop (maxForkDepth c) (maxFork c)
          (randomChoiceQ it c.early_termination_prob (initialState fi ii)).1 fl it
          (orOne (getOptionMinN c.number_of_source_nodes))
          (randomChoiceQ it c.early_termination_prob (initialState fi ii)).2).1.g.types =
        entries.map (fun e => (e, "source")) ∧
      ∀ e ∈ entries,
        e ∈ (sourceLoop (maxForkDepth c) (maxFork c)
          (randomChoiceQ it c.early_termination_prob (initialState fi ii)).1 fl it
          (orOne (getOptionMinN c.number_of_source_nodes))
          (randomChoiceQ it c.early_termination_prob (initialState fi ii)).2).1.g.nodes := by
  have hsl := sourceLoop_spec (maxForkDepth c) (maxFork c)
    (randomChoiceQ it c.early_termination_prob (initialState fi ii)).1 fl it
    (orOne (getOptionMinN c.number_of_source_nodes))
    (randomChoiceQ it c.early_termination_prob (initialState fi ii)).2
  refine ⟨hsl.2.2.1, ?_⟩
  obtain ⟨entries, hlen, hty, hnd, hent⟩ := hsl.2.2.2
  refine ⟨entries, hlen, hnd, ?_, fun e he => (hent e he).2⟩
  rw [hty, show (randomChoiceQ it c.early_termination_prob
    (initialState fi ii)).2.g.types = [] from by
      rw [randomChoiceQ_g]
      rfl]
  simp

/-- Counterexample for C6 as stated: with `number_of_source_nodes = [1, 2]`
and an oracle whose choice draw selects the second element, sampling from the
configured value-or-range (the spec's `Util.random_choice`, modelled by
`randomChoiceN`) yields 2 source slots, but the built graph has exactly one
`source`-tagged node — the code takes `get_option_min(...) or 1`, the
minimum, not a sample.  The configuration passes validation. -/
theorem claim_C6_counterexample :
    validateConfig cfgSrc12 = Except.ok () ∧
    cfgSrc12.number_of_source_nodes = some (ConfigValue.vals [1, 2]) ∧
    (randomChoiceN (itK 1) (ConfigValue.vals [1, 2]) (initialState 0 0)).1 = 2 ∧
    countTag (buildOne cfgSrc12 flZ (itK 1) 0 0).g "source" = 1 ∧
    (buildOne cfgSrc12 flZ (itK 1) 0 0).g.types.length = 1 :=
  ⟨rfl, rfl, by decide, by decide, by decide⟩

/-- Claim C7: validation raises `InfeasibleConfigError` (with the source/sink
budget message, the first check) whenever min(number_of_source_nodes) +
min(number_of_sink_nodes) — each defaulting to 1 when the configuration omits
it — exceeds max(number_of_nodes); construction of the builder validates
eagerly, so the failure happens before any graph is produced. -/
theorem claim_C7_infeasible (c : Config)
    (h : (getOptionMinN c.number_of_source_nodes).getD 1 +
      (getOptionMinN c.number_of_sink_nodes).getD 1 > cvMaxN c.number_of_nodes) :
    validateConfig c = Except.error (PyError.infeasible srcSinkMsg) ∧
    forkJoinBuilderNew c = Except.error (PyError.infeasible srcSinkMsg) := by
  have h1 := getD_le_orOne (getOptionMinN c.number_of_source_nodes)
  have h2 := getD_le_orOne (getOptionMinN c.number_of_sink_nodes)
  have hcode : orOne (getOptionMinN c.number_of_source_nodes) +
      orOne (getOptionMinN c.number_of_sink_nodes) > cvMaxN c.number_of_nodes := by
    omega
  have hval : validateConfig c = Except.error (PyError.infeasible srcSinkMsg) := by
    simp only [validateConfig]
    rw [if_pos hcode]
  exact ⟨hval, by simp only [forkJoinBuilderNew, hval, Except.map]⟩

/-- Witness for C7: the infeasibility scenario `number_of_source_nodes = 5`,
`number_of_sink_nodes = 5`, `number_of_nodes = 6` fails validation, and
builder construction fails with it. -/
theorem claim_C7_infeasible_witness :
    ((getOptionMinN cfg556.number_of_source_nodes).getD 1 +
      (getOptionMinN cfg556.number_of_sink_nodes).getD 1 > cvMaxN cfg556.number_of_nodes) ∧
    validateConfig cfg556 = Except.error (PyError.infeasible srcSinkMsg) ∧
    forkJoinBuilderNew cfg556 = Except.error (PyError.infeasible srcSinkMsg) :=
  ⟨by decide, claim_C7_infeasible cfg556 (by decide)⟩

/-- Claim C10: when the sampled sink count is 1, the sink step allocates no
node and assigns `type = sink` to the final output in place; concretely, with
max fork depth 0 and one source the final output is the source node itself,
whose `source` tag is overwritten, leaving a graph with a sink-tagged node of
in-degree 0 and no source-tagged node. -/
theorem claim_C10_sink_retag :
    (∀ (c : Config) (it : Nat → Nat) (fo : Nat) (st : BuildState) (cv : ConfigValue Nat),
      c.number_of_sink_nodes = some cv → truthyCVN cv = true →
      (randomChoiceN it cv st).1 = 1 →
      (sinkPhase c it fo st).g.nodes = st.g.nodes ∧
      typeOf (sinkPhase c it fo st).g fo = some "sink") ∧
    ((buildOne cfgDepth0 flZ (itK 1) 0 0).g.nodes = [0] ∧
      typeOf (buildOne cfgDepth0 flZ (itK 1) 0 0).g 0 = some "sink" ∧
      inDeg (buildOne cfgDepth0 flZ (itK 1) 0 0).g 0 = 0 ∧
      ∀ m ∈ (buildOne cfgDepth0 flZ (itK 1) 0 0).g.nodes,
        typeOf (buildOne cfgDepth0 flZ (itK 1) 0 0).g m ≠ some "source") := by
  constructor
  · intro c it fo st cv hcv ht h1
    simp only [sinkPhase, hcv, if_pos ht, if_pos h1]
    constructor
    · rw [setType_nodes]
      exact congrArg (fun gg => gg.nodes) (randomChoiceN_g it cv st)
    · simp [typeOf, setType_types]
  · exact ⟨by decide, by decide, by decide, by decide⟩

/-- Witness for the universally quantified part of C10 at concrete inputs. -/
theorem claim_C10_sink_retag_witness :
    (sinkPhase baseCfg (itK 1) 0 stW).g.nodes = stW.g.nodes ∧
    typeOf (sinkPhase baseCfg (itK 1) 0 stW).g 0 = some "sink" :=
  claim_C10_sink_retag.1 baseCfg (itK 1) 0 stW (ConfigValue.scalar 1) rfl (by decide) rfl


lemma vertexRow_snd (n : ExpNode) (r : Int × Rat) (h : vertexRow n = Except.ok r) :
    r.2 = if n.type == some "source" || n.type == some "sink" then 0
      else n.execution_time.getD 0 := by
  by_cases hb : (n.type == some "source" || n.type == some "sink") = true
  · have h1 : vertexRow n = Except.ok (n.id, 0) := by
      simp only [vertexRow]
      rw [if_pos hb]
    rw [h1] at h
    injection h with h2
    rw [← h2, if_pos hb]
  · rcases he : n.execution_time with _ | cexec
    · have h1 : vertexRow n = Except.error PyError.keyError := by
        simp only [vertexRow]
        rw [if_neg hb, he]
      rw [h1] at h
      exact absurd h (by simp)
    · have h1 : vertexRow n = Except.ok (n.id, cexec) := by
        simp only [vertexRow]
        rw [if_neg hb, he]
      rw [h1] at h
      injection h with h2
      subst h2
      have hb2 : ¬(n.type = some "source" ∨ n.type = some "sink") := by
        simpa using hb
      simp [he, hb2]

lemma vertexRows_sum : ∀ (ns : List ExpNode) (rows : List (Int × Rat)),
    vertexRows ns = Except.ok rows →
    (rows.map Prod.snd).sum =
      (ns.map fun n => if n.type == some "source" || n.type == some "sink" then (0 : Rat)
        else n.execution_time.getD 0).sum
  | [], rows, h => by
    simp only [vertexRows] at h
    injection h with h2
    rw [← h2]
    rfl
  | n :: ns, rows, h => by
    simp only [vertexRows] at h
    rcases hr : vertexRow n with e | r
    · simp only [hr] at h
      exact Except.noConfusion h
    · simp only [hr] at h
      rcases hrs : vertexRows ns with e | rs
      · simp only [hrs] at h
        exact Except.noConfusion h
      · simp only [hrs] at h
        injection h with h2
        rw [← h2]
        simp only [List.map_cons, List.sum_cons]
        rw [vertexRows_sum ns rs hrs, vertexRow_snd n r hr]

/-- Claim C8 (amended): in the ray-YAML mapping, when
`graph_deadline and graph_period` is truthy in Python's sense (both present
and nonzero/nonempty), they are emitted directly as `d` and `t`; otherwise
(including a deadline or period configured as 0) `d` and `t` are both
`round(total_execution_time / graph_utilization, 2)` where the total sums
execution times over all vertices after forcing `source`/`sink` vertices to
0 (requiring the raw utilization to be a nonzero scalar for the division to
succeed). -/
theorem claim_C8_amended (c : Config) (gd : EDag) (r : CustomExport)
    (h : exportDagCustomYaml c gd = Except.ok r) :
    ((truthyRawQ c.graph_deadline && truthyRawQ c.graph_period) = true →
      r.d = c.graph_deadline ∧ r.t = c.graph_period) ∧
    ((truthyRawQ c.graph_deadline && truthyRawQ c.graph_period) = false →
      ∃ u : Rat, c.graph_utilization = some (ConfigValue.scalar u) ∧ u ≠ 0 ∧
        r.d = some (ConfigValue.scalar (pyRound2 (totalExecTime gd / u))) ∧
        r.t = r.d) := by
  rcases hrows : vertexRows gd.nodes with e | rows
  · simp only [exportDagCustomYaml, hrows] at h
    exact Except.noConfusion h
  · simp only [exportDagCustomYaml, hrows] at h
    rcases hdt : dtPair c ((rows.map Prod.snd).sum) with e | dt
    · simp only [hdt] at h
      exact Except.noConfusion h
    · simp only [hdt] at h
      injection h with h2
      have hvol : (rows.map Prod.snd).sum = totalExecTime gd :=
        vertexRows_sum gd.nodes rows hrows
      constructor
      · intro htr
        have hdt2 : (c.graph_deadline, c.graph_period) = dt := by
          simp only [dtPair] at hdt
          rw [if_pos htr] at hdt
          injection hdt
        rw [← h2, ← hdt2]
        exact ⟨rfl, rfl⟩
      · intro hft
        have hcond : ¬ ((truthyRawQ c.graph_deadline && truthyRawQ c.graph_period) = true) := by
          simp [hft]
        simp only [dtPair] at hdt
        rw [if_neg hcond] at hdt
        rcases hu : c.graph_utilization with _ | cu
        · simp only [hu] at hdt
          exact Except.noConfusion hdt
        · cases cu with
          | scalar u =>
            simp only [hu] at hdt
            by_cases hz : (u == 0) = true
            · rw [if_pos hz] at hdt
              exact absurd hdt (by simp)
            · rw [if_neg hz] at hdt
              injection hdt with h3
              refine ⟨u, rfl, by simpa using hz, ?_, ?_⟩
              · rw [← h2, ← h3]
                show some (ConfigValue.scalar (pyRound2 ((rows.map Prod.snd).sum / u))) =
                  some (ConfigValue.scalar (pyRound2 (totalExecTime gd / u)))
                rw [hvol]
              · rw [← h2, ← h3]
          | vals xs =>
            simp only [hu] at hdt
            exact Except.noConfusion hdt

/-- Witness for the amended C8: with deadline and period both configured 1
(truthy), the record for `gdThree` carries them as `d` and `t`. -/
theorem claim_C8_amended_witness :
    (truthyRawQ cfgRayOnly.graph_deadline && truthyRawQ cfgRayOnly.graph_period) = true ∧
    rW.d = cfgRayOnly.graph_deadline ∧ rW.t = cfgRayOnly.graph_period :=
  ⟨rfl, (claim_C8_amended cfgRayOnly gdThree rW rfl).1 rfl⟩

/-- Counterexample for C8 as stated: `graph_deadline` configured as 0 is
present ("configured") but falsy, so with `graph_period = 5` and
`graph_utilization = 2` the export does not emit the configured pair: on a
one-vertex graph with execution time 5 it computes
`d = t = round(5 / 2, 2) = 5/2`, and `d` differs from the configured
deadline. -/
theorem claim_C8_counterexample :
    cfgDl0.graph_deadline = some (ConfigValue.scalar 0) ∧
    cfgDl0.graph_period = some (ConfigValue.scalar 5) ∧
    exportDagCustomYaml cfgDl0 gdOne = Except.ok
      { d := some (ConfigValue.scalar ((5 : Rat) / 2))
        t := some (ConfigValue.scalar ((5 : Rat) / 2))
        vertices := [(0, 5)]
        edges := []
        indirect_edges := [] } ∧
    some (ConfigValue.scalar ((5 : Rat) / 2)) ≠ cfgDl0.graph_deadline := by
  refine ⟨rfl, rfl, ?_, ?_⟩
  · with_unfolding_all rfl
  · intro hc
    rw [show cfgDl0.graph_deadline = some (ConfigValue.scalar 0) from rfl] at hc
    injection hc with h1
    injection h1 with h2
    norm_num at h2

lemma zz_pair : ∀ (l : List ExpNode), ∀ p ∈ l.zip (l.map fun n =>
      if n.type == some "source" || n.type == some "sink" then
        { n with execution_time := some 0 } else n),
    p.2.id = p.1.id ∧ p.2.type = p.1.type ∧ p.2.label = p.1.label ∧
    p.2.shape = p.1.shape ∧ p.2.style = p.1.style ∧ p.2.period = p.1.period ∧
    p.2.end_to_end_deadline = p.1.end_to_end_deadline ∧ p.2.fontsize = p.1.fontsize ∧
    p.2.execution_time = (if p.1.type == some "source" || p.1.type == some "sink"
      then some 0 else p.1.execution_time)
  | [], p, hp => absurd hp (by simp)
  | a :: l, p, hp => by
    simp only [List.map_cons, List.zip_cons_cons] at hp
    rcases List.mem_cons.mp hp with rfl | hp2
    · by_cases hb : (a.type == some "source" || a.type == some "sink") = true
      · simp only [if_pos hb]
        refine ⟨?_, ?_, ?_, ?_, ?_, ?_, ?_, ?_, ?_⟩ <;> trivial
      · simp only [if_neg hb]
        refine ⟨?_, ?_, ?_, ?_, ?_, ?_, ?_, ?_, ?_⟩ <;> trivial
    · exact zz_pair l p hp2

/-- Claim C9 (amended): when `ray_yaml` is set and `figure` is NOT set, a
successful `DAGExporter.export` mutates the graph passed to it exactly by
setting the `execution_time` of every `source`- or `sink`-tagged node to 0:
edges, node count, ids, types, and every other node attribute — including the
execution times of untagged nodes — are unchanged.  (With `figure` set the
claim fails: the figure step relabels nodes — see the counterexample.) -/
theorem claim_C9_amended (c : Config) (dag d9 : EDag)
    (hray : c.ray_yaml = true) (hfig : c.figure = false)
    (h : exportEffect c dag = Except.ok d9) :
    d9.edges = dag.edges ∧
    d9.nodes.length = dag.nodes.length ∧
    ∀ p ∈ dag.nodes.zip d9.nodes,
      p.2.id = p.1.id ∧ p.2.type = p.1.type ∧ p.2.label = p.1.label ∧
      p.2.shape = p.1.shape ∧ p.2.style = p.1.style ∧ p.2.period = p.1.period ∧
      p.2.end_to_end_deadline = p.1.end_to_end_deadline ∧ p.2.fontsize = p.1.fontsize ∧
      p.2.execution_time = (if p.1.type == some "source" || p.1.type == some "sink"
        then some 0 else p.1.execution_time) := by
  have hd : d9 = changeSourceSinkWcet dag := by
    simp [exportEffect, hray, hfig] at h
    rcases hy : exportDagCustomYaml c (changeSourceSinkWcet dag) with e | v
    · simp only [hy] at h
      exact Except.noConfusion h
    · simp only [hy] at h
      injection h with h2
      exact h2.symm
  subst hd
  exact ⟨rfl, by simp [changeSourceSinkWcet], zz_pair dag.nodes⟩

/-- Witness for the amended C9 at `cfgRayOnly` and `gdThree`. -/
theorem claim_C9_amended_witness :
    gdThreeZ.edges = gdThree.edges ∧ gdThreeZ.nodes.length = gdThree.nodes.length :=
  ⟨(claim_C9_amended cfgRayOnly gdThree gdThreeZ rfl rfl rfl).1,
   (claim_C9_amended cfgRayOnly gdThree gdThreeZ rfl rfl rfl).2.1⟩

/-- Counterexample for C9 as stated: with both `ray_yaml` and `figure` set,
export succeeds on a one-node graph with an untagged node, but the node's
`label` attribute — one of the "other node attributes" the claim says are
left unchanged — is modified by the figure step (the execution time itself is
indeed untouched). -/
theorem claim_C9_counterexample :
    cfgRayFig.ray_yaml = true ∧ cfgRayFig.figure = true ∧
    gdOne.nodes.map ExpNode.label = [none] ∧
    (exportEffect cfgRayFig gdOne).toOption.map (fun d9 => d9.nodes.map ExpNode.label) ≠
      some [none] ∧
    (exportEffect cfgRayFig gdOne).toOption.map
        (fun d9 => d9.nodes.map ExpNode.execution_time) = some [some 5] :=
  ⟨rfl, rfl, by decide, by decide, by decide⟩

end RDGen
